import Mathlib

/-!
Verification of the Garmin RSD record scanner/decoder
(`src/rsd_parser_rust/src/parsers/garmin_rsd.rs` and `src/rsd_parser_rust/src/lib.rs`).

The byte buffer is a `List Nat` (each entry one byte of the file).  Machine
integers are modelled as `Nat`: `u32::from_le_bytes` on bytes `< 256` never
overflows, so no reduction mod `2^32` is needed.  The scanning loops of the
Rust code are `while` loops whose cursor strictly increases each iteration;
they are embedded as structurally recursive functions on an explicit fuel
argument, called with enough fuel (`length + 1`) for the loop to run to its
natural termination.  File I/O is modelled by the byte content of the file;
a successful read of a regular file into the 1 MiB buffer delivers
`CHUNK`-sized chunks (`chunksOf`), the last one partial.
-/

namespace SonarSniffer

/-- `MAGIC_REC_HDR` from lib.rs: magic for RSD record header. -/
def MAGIC_REC_HDR : Nat := 0xB7E9DA86

/-- `MAGIC_REC_TRL` from lib.rs: magic for RSD record trailer (not used in decoding). -/
def MAGIC_REC_TRL : Nat := 0xC4D2B1A5

/-- The 1 MiB read-buffer size used by `record_count`, `parse_all` and `parse_streaming`. -/
def CHUNK : Nat := 1024 * 1024

/-- The 500 MiB buffered/streaming threshold of `parse_all`. -/
def THRESHOLD : Nat := 500 * 1024 * 1024

/-- `u32::from_le_bytes([b0, b1, b2, b3])`. -/
def u32le (b0 b1 b2 b3 : Nat) : Nat :=
  b0 + b1 * 256 + b2 * 65536 + b3 * 16777216

/-- The little-endian u32 at index `i` of a byte buffer.  The Rust code only
reads it after checking `i + 4` is within bounds, so the `0` default for
out-of-range indices is never observable on those paths. -/
def u32le_at (buffer : List Nat) (i : Nat) : Nat :=
  u32le (buffer.getD i 0) (buffer.getD (i + 1) 0) (buffer.getD (i + 2) 0)
    (buffer.getD (i + 3) 0)

/-- `SonarRecord` from lib.rs.  `u64`/`u32` fields become `Nat`,
`Option<f64>`/`Option<f32>` become `Option Float`. -/
@[ext]
structure SonarRecord where
  offset : Nat
  sequence : Nat
  time_ms : Nat
  channel_id : Option Nat
  latitude : Option Float
  longitude : Option Float
  depth_m : Option Float
  water_temp_c : Option Float
  water_temp_f : Option Float
  pitch_deg : Option Float
  roll_deg : Option Float
  beam_angle_deg : Option Float
  gps_speed_knots : Option Float
  gps_heading_deg : Option Float
  sample_count : Option Nat
  sonar_offset : Option Nat
  sonar_size : Option Nat

/-- `RsdError` from lib.rs (the `Io` payload is irrelevant here). -/
inductive RsdError where
  | Io : RsdError
  | InvalidFormat : Nat → String → RsdError
  | CrcValidationFailed : RsdError
  | CorruptedRecord : RsdError
deriving DecidableEq

/-- `GarminRsdParser::parse_record_at`.  The pair `p` holds the running
`(record.sequence, offset)` state after the optional sequence-field read. -/
def parse_record_at (buffer : List Nat) (start : Nat) : Except RsdError SonarRecord :=
  if start + 4 > buffer.length then
    .error .CorruptedRecord
  else if u32le_at buffer start ≠ MAGIC_REC_HDR then
    .error (.InvalidFormat start "Invalid magic byte")
  else
    let afterMagic := start + 4
    let p : Nat × Nat :=
      if afterMagic + 4 ≤ buffer.length then (u32le_at buffer afterMagic, afterMagic + 4)
      else (0, afterMagic)
    let timeVal : Nat := if p.2 + 4 ≤ buffer.length then u32le_at buffer p.2 else 0
    .ok { offset := start, sequence := p.1, time_ms := timeVal,
          channel_id := none, latitude := none, longitude := none, depth_m := none,
          water_temp_c := none, water_temp_f := none, pitch_deg := none,
          roll_deg := none, beam_angle_deg := none, gps_speed_knots := none,
          gps_heading_deg := none, sample_count := none, sonar_offset := none,
          sonar_size := none }

/-- The record `parse_record_at` produces at a position whose 4 magic bytes
are in bounds and match. -/
def canonicalRecord (buffer : List Nat) (p : Nat) : SonarRecord :=
  { offset := p,
    sequence := if p + 8 ≤ buffer.length then u32le_at buffer (p + 4) else 0,
    time_ms := if p + 12 ≤ buffer.length then u32le_at buffer (p + 8) else 0,
    channel_id := none, latitude := none, longitude := none, depth_m := none,
    water_temp_c := none, water_temp_f := none, pitch_deg := none,
    roll_deg := none, beam_angle_deg := none, gps_speed_knots := none,
    gps_heading_deg := none, sample_count := none, sonar_offset := none,
    sonar_size := none }

/-- `if let Some(limit_val) = limit { if count >= limit_val { ... } }`. -/
def limitReached : Option Nat → Nat → Bool
  | some l, count => decide (l ≤ count)
  | none, _ => false

/-- The scanning `while` loop of `GarminRsdParser::parse_buffer`, on fuel.
Arguments after `limit`: fuel, `offset`, `count`, `records`. -/
def parseBufferLoop (buffer : List Nat) (limit : Option Nat) :
    Nat → Nat → Nat → List SonarRecord → List SonarRecord
  | 0, _, _, records => records
  | fuel + 1, offset, count, records =>
    if offset < buffer.length then
      if limitReached limit count then records
      else if offset + 4 > buffer.length then records
      else if u32le_at buffer offset = MAGIC_REC_HDR then
        match parse_record_at buffer offset with
        | .ok record =>
            parseBufferLoop buffer limit fuel (offset + 1024) (count + 1)
              (records ++ [record])
        | .error _ => parseBufferLoop buffer limit fuel (offset + 1) count records
      else parseBufferLoop buffer limit fuel (offset + 1) count records
    else records

/-- `GarminRsdParser::parse_buffer`.  It contains no fallible operation, so it
always returns `Ok`. -/
def parse_buffer (buffer : List Nat) (limit : Option Nat) :
    Except RsdError (List SonarRecord) :=
  .ok (parseBufferLoop buffer limit (buffer.length + 1) 0 0 [])

/-- The inner `while buffer_offset < bytes_read` loop of
`GarminRsdParser::parse_streaming`, on fuel.  The `Bool` result is `true`
exactly when the Rust code executed `return Ok(records)` because the limit was
reached.  Arguments after `fileOffset`: fuel, `buffer_offset`, `count`,
`records`. -/
def parseStreamingInner (buffer : List Nat) (bytesRead : Nat) (limit : Option Nat)
    (fileOffset : Nat) :
    Nat → Nat → Nat → List SonarRecord → List SonarRecord × Nat × Bool
  | 0, _, count, records => (records, count, false)
  | fuel + 1, bufferOffset, count, records =>
    if bufferOffset < bytesRead then
      if limitReached limit count then (records, count, true)
      else if bufferOffset + 4 > bytesRead then (records, count, false)
      else if u32le_at buffer bufferOffset = MAGIC_REC_HDR then
        match parse_record_at (buffer.drop bufferOffset) 0 with
        | .ok record =>
            parseStreamingInner buffer bytesRead limit fileOffset fuel
              (bufferOffset + 1024) (count + 1)
              (records ++ [{ record with offset := fileOffset + bufferOffset }])
        | .error _ =>
            parseStreamingInner buffer bytesRead limit fileOffset fuel
              (bufferOffset + 1) count records
      else
        parseStreamingInner buffer bytesRead limit fileOffset fuel
          (bufferOffset + 1) count records
    else (records, count, false)

/-- The outer `loop` of `GarminRsdParser::parse_streaming`: `reads` is the
sequence of byte counts the successive `file.read(&mut buffer)` calls deliver
(reading 0 bytes, i.e. an empty chunk or an exhausted list, ends the loop).
A read overwrites the first `bytes_read` bytes of the 1 MiB buffer; the stale
tail of the previous buffer contents is kept, exactly as in the Rust code. -/
def parseStreamingLoop (limit : Option Nat) :
    List (List Nat) → List Nat → Nat → Nat → List SonarRecord → List SonarRecord
  | [], _, _, _, records => records
  | chunk :: rest, buffer, fileOffset, count, records =>
    if chunk.length = 0 then records
    else
      let buffer2 := chunk ++ buffer.drop chunk.length
      let step := parseStreamingInner buffer2 chunk.length limit fileOffset
        (chunk.length + 1) 0 count records
      if step.2.2 then step.1
      else parseStreamingLoop limit rest buffer2 (fileOffset + chunk.length)
        step.2.1 step.1

/-- `GarminRsdParser::parse_streaming`, given the chunks the reads deliver.
The buffer starts as `vec![0u8; 1024 * 1024]`. -/
def parse_streaming (reads : List (List Nat)) (limit : Option Nat) :
    Except RsdError (List SonarRecord) :=
  .ok (parseStreamingLoop limit reads (List.replicate CHUNK 0) 0 0 [])

/-- Successive `CHUNK`-sized reads of a file with the given byte content (fuel
formulation of splitting into chunks; `content.length` is always enough fuel). -/
def chunksOfFuel : Nat → List Nat → List (List Nat)
  | 0, _ => []
  | fuel + 1, content =>
    if content.isEmpty then []
    else content.take CHUNK :: chunksOfFuel fuel (content.drop CHUNK)

/-- The chunks a regular file with byte content `content` delivers to
successive full-buffer reads. -/
def chunksOf (content : List Nat) : List (List Nat) :=
  chunksOfFuel content.length content

/-- `GarminRsdParser::parse_all` on a file with byte content `content`:
below the 500 MiB threshold the whole file is read and `parse_buffer` runs,
otherwise `parse_streaming` consumes the file in 1 MiB reads. -/
def parse_all (content : List Nat) (limit : Option Nat) :
    Except RsdError (List SonarRecord) :=
  if content.length < THRESHOLD then parse_buffer content limit
  else parse_streaming (chunksOf content) limit

/-- One chunk's contribution to `GarminRsdParser::record_count`:
`buffer[..bytes_read].windows(4)` visits indices `0 .. len - 4`, and the
counter increments on every window equal to the magic. -/
def countMarkers (chunk : List Nat) : Nat :=
  ((List.range (chunk.length - 3)).filter
    (fun i => decide (u32le_at chunk i = MAGIC_REC_HDR))).length

/-- `GarminRsdParser::record_count` on a file with byte content `content`. -/
def record_count (content : List Nat) : Except RsdError Nat :=
  .ok (((chunksOf content).map countMarkers).sum)

/-- A (fully in-bounds) occurrence of the header marker at position `p`. -/
def markerOccursAt (content : List Nat) (p : Nat) : Prop :=
  p + 4 ≤ content.length ∧ u32le_at content p = MAGIC_REC_HDR

instance (content : List Nat) (p : Nat) : Decidable (markerOccursAt content p) :=
  inferInstanceAs (Decidable (_ ∧ _))

/-! ### Byte access helpers -/

theorem gd_append_left {l t : List Nat} {i : Nat} (h : i < l.length) (d : Nat) :
    (l ++ t).getD i d = l.getD i d := by
  simp [List.getD_eq_getElem?_getD, List.getElem?_append_left h]

theorem gd_append_right {l t : List Nat} {i : Nat} (h : l.length ≤ i) (d : Nat) :
    (l ++ t).getD i d = t.getD (i - l.length) d := by
  simp [List.getD_eq_getElem?_getD, List.getElem?_append_right h]

theorem gd_replicate_zero (n i : Nat) : (List.replicate n (0 : Nat)).getD i 0 = 0 := by
  rw [List.getD_eq_getElem?_getD, List.getElem?_replicate]
  by_cases h : i < n <;> simp [h]

theorem gd_drop (l : List Nat) (m i d : Nat) : (l.drop m).getD i d = l.getD (m + i) d := by
  simp [List.getD_eq_getElem?_getD]

theorem gd_take {l : List Nat} {n i : Nat} (h : i < n) (d : Nat) :
    (l.take n).getD i d = l.getD i d := by
  simp [List.getD_eq_getElem?_getD, List.getElem?_take_of_lt h]

/-- No window that starts inside an all-zero prefix can be the header marker:
its low byte is 0 while the marker's low byte is 0x86. -/
theorem nomark_rep (t : List Nat) (n j : Nat) (h : j < n) :
    u32le_at (List.replicate n 0 ++ t) j ≠ MAGIC_REC_HDR := by
  have hb0 : (List.replicate n (0 : Nat) ++ t).getD j 0 = 0 := by
    rw [gd_append_left (by simpa using h), gd_replicate_zero]
  unfold u32le_at u32le MAGIC_REC_HDR
  rw [hb0]
  omega

/-! ### Characterization of parse_record_at -/

theorem canonicalRecord_offset (buffer : List Nat) (p : Nat) :
    (canonicalRecord buffer p).offset = p := rfl

theorem parse_record_at_corrupted {buffer : List Nat} {start : Nat}
    (h : buffer.length < start + 4) :
    parse_record_at buffer start = .error .CorruptedRecord := by
  unfold parse_record_at
  rw [if_pos (by omega)]

theorem parse_record_at_invalid {buffer : List Nat} {start : Nat}
    (h4 : start + 4 ≤ buffer.length) (hm : u32le_at buffer start ≠ MAGIC_REC_HDR) :
    parse_record_at buffer start = .error (.InvalidFormat start "Invalid magic byte") := by
  unfold parse_record_at
  rw [if_neg (by omega), if_pos hm]

theorem parse_record_at_ok {buffer : List Nat} {start : Nat}
    (h4 : start + 4 ≤ buffer.length) (hm : u32le_at buffer start = MAGIC_REC_HDR) :
    parse_record_at buffer start = .ok (canonicalRecord buffer start) := by
  unfold parse_record_at canonicalRecord
  rw [if_neg (by omega), if_neg (fun hne => hne hm)]
  by_cases h8 : start + 8 ≤ buffer.length
  · by_cases h12 : start + 12 ≤ buffer.length
    · simp only [show start + 4 + 4 = start + 8 from by omega, if_pos h8,
        show start + 8 + 4 = start + 12 from by omega, if_pos h12]
    · simp only [show start + 4 + 4 = start + 8 from by omega, if_pos h8,
        show start + 8 + 4 = start + 12 from by omega, if_neg h12]
  · simp only [show start + 4 + 4 = start + 8 from by omega, if_neg h8,
      if_neg (show ¬start + 12 ≤ buffer.length from by omega)]

theorem parse_record_at_eq_corrupted_iff (buffer : List Nat) (start : Nat) :
    parse_record_at buffer start = .error .CorruptedRecord ↔
      buffer.length < start + 4 := by
  constructor
  · intro h
    by_contra hb
    push_neg at hb
    by_cases hm : u32le_at buffer start = MAGIC_REC_HDR
    · rw [parse_record_at_ok hb hm] at h
      exact absurd h (by simp)
    · rw [parse_record_at_invalid hb hm] at h
      simp at h
  · exact parse_record_at_corrupted

theorem parse_record_at_eq_invalid_iff (buffer : List Nat) (start : Nat) :
    parse_record_at buffer start = .error (.InvalidFormat start "Invalid magic byte") ↔
      (start + 4 ≤ buffer.length ∧ u32le_at buffer start ≠ MAGIC_REC_HDR) := by
  constructor
  · intro h
    by_cases hb : start + 4 ≤ buffer.length
    · by_cases hm : u32le_at buffer start = MAGIC_REC_HDR
      · rw [parse_record_at_ok hb hm] at h
        exact absurd h (by simp)
      · exact ⟨hb, hm⟩
    · rw [parse_record_at_corrupted (by omega)] at h
      simp at h
  · intro ⟨hb, hm⟩
    exact parse_record_at_invalid hb hm

/-! ### The buffered scanning loop -/

theorem bl_zero (buffer : List Nat) (limit : Option Nat) (offset count : Nat)
    (records : List SonarRecord) :
    parseBufferLoop buffer limit 0 offset count records = records := rfl

theorem bl_succ (buffer : List Nat) (limit : Option Nat) (fuel offset count : Nat)
    (records : List SonarRecord) :
    parseBufferLoop buffer limit (fuel + 1) offset count records =
      (if offset < buffer.length then
        if limitReached limit count then records
        else if offset + 4 > buffer.length then records
        else if u32le_at buffer offset = MAGIC_REC_HDR then
          match parse_record_at buffer offset with
          | .ok record =>
              parseBufferLoop buffer limit fuel (offset + 1024) (count + 1)
                (records ++ [record])
          | .error _ => parseBufferLoop buffer limit fuel (offset + 1) count records
        else parseBufferLoop buffer limit fuel (offset + 1) count records
      else records) := rfl

theorem bl_break {buffer : List Nat} {limit : Option Nat} {fuel offset count : Nat}
    {records : List SonarRecord}
    (h : buffer.length ≤ offset ∨ limitReached limit count = true ∨
      buffer.length < offset + 4) :
    parseBufferLoop buffer limit fuel offset count records = records := by
  cases fuel with
  | zero => rfl
  | succ fuel =>
    rw [bl_succ]
    rcases h with h | h | h
    · rw [if_neg (by omega)]
    · by_cases ho : offset < buffer.length
      · rw [if_pos ho, if_pos h]
      · rw [if_neg ho]
    · by_cases ho : offset < buffer.length
      · by_cases hl : limitReached limit count
        · rw [if_pos ho, if_pos hl]
        · rw [if_pos ho, if_neg hl, if_pos (by omega)]
      · rw [if_neg ho]

theorem bl_step_match {buffer : List Nat} {limit : Option Nat} {fuel offset count : Nat}
    {records : List SonarRecord}
    (hl : limitReached limit count = false)
    (h4 : offset + 4 ≤ buffer.length)
    (hm : u32le_at buffer offset = MAGIC_REC_HDR) :
    parseBufferLoop buffer limit (fuel + 1) offset count records =
      parseBufferLoop buffer limit fuel (offset + 1024) (count + 1)
        (records ++ [canonicalRecord buffer offset]) := by
  rw [bl_succ, if_pos (by omega), if_neg (by simp [hl]), if_neg (by omega), if_pos hm,
    parse_record_at_ok h4 hm]

theorem bl_step_nomatch {buffer : List Nat} {limit : Option Nat} {fuel offset count : Nat}
    {records : List SonarRecord}
    (ho : offset < buffer.length)
    (hl : limitReached limit count = false)
    (h4 : offset + 4 ≤ buffer.length)
    (hm : u32le_at buffer offset ≠ MAGIC_REC_HDR) :
    parseBufferLoop buffer limit (fuel + 1) offset count records =
      parseBufferLoop buffer limit fuel (offset + 1) count records := by
  rw [bl_succ, if_pos ho, if_neg (by simp [hl]), if_neg (by omega), if_neg hm]

/-- A stretch of positions with no in-bounds marker window is skipped byte by
byte without touching `count` or `records`. -/
theorem bl_skip {buffer : List Nat} {limit : Option Nat} (k : Nat) :
    ∀ (fuel offset count : Nat) (records : List SonarRecord),
      (∀ j, j < k → offset + j + 4 ≤ buffer.length →
        u32le_at buffer (offset + j) ≠ MAGIC_REC_HDR) →
      parseBufferLoop buffer limit (k + fuel) offset count records =
        parseBufferLoop buffer limit fuel (offset + k) count records := by
  induction k with
  | zero =>
    intro fuel offset count records _
    rw [Nat.zero_add, Nat.add_zero]
  | succ k ih =>
    intro fuel offset count records h
    by_cases ho : offset < buffer.length
    · by_cases hl : limitReached limit count
      · rw [bl_break (Or.inr (Or.inl hl)), bl_break (Or.inr (Or.inl hl))]
      · by_cases h4 : offset + 4 > buffer.length
        · rw [bl_break (Or.inr (Or.inr (by omega))),
            bl_break (Or.inr (Or.inr (by omega)))]
        · have hm0 : u32le_at buffer offset ≠ MAGIC_REC_HDR := by
            have := h 0 (by omega) (by omega)
            simpa using this
          have hsh : ∀ j, j < k → offset + 1 + j + 4 ≤ buffer.length →
              u32le_at buffer (offset + 1 + j) ≠ MAGIC_REC_HDR := by
            intro j hj hb
            have e : offset + 1 + j = offset + (j + 1) := by omega
            rw [e]
            exact h (j + 1) (by omega) (by omega)
          rw [show k + 1 + fuel = (k + fuel) + 1 from by omega,
            bl_step_nomatch ho (by simpa using hl) (by omega) hm0,
            ih fuel (offset + 1) count records hsh,
            show offset + 1 + k = offset + (k + 1) from by omega]
    · rw [bl_break (Or.inl (by omega)), bl_break (Or.inl (by omega))]

/-- If no in-bounds marker window exists at or after the cursor, the loop
finishes without appending anything. -/
theorem bl_nomarker {buffer : List Nat} {limit : Option Nat} (fuel : Nat) :
    ∀ (offset count : Nat) (records : List SonarRecord),
      (∀ j, offset ≤ j → j + 4 ≤ buffer.length →
        u32le_at buffer j ≠ MAGIC_REC_HDR) →
      parseBufferLoop buffer limit fuel offset count records = records := by
  induction fuel with
  | zero => intro offset count records _; rfl
  | succ fuel ih =>
    intro offset count records h
    by_cases ho : offset < buffer.length
    · by_cases hl : limitReached limit count
      · exact bl_break (Or.inr (Or.inl hl))
      · by_cases h4 : offset + 4 > buffer.length
        · exact bl_break (Or.inr (Or.inr (by omega)))
        · rw [bl_step_nomatch ho (by simpa using hl) (by omega)
            (h offset (le_refl _) (by omega))]
          exact ih (offset + 1) count records (fun j hj hb => h j (by omega) hb)
    · exact bl_break (Or.inl (by omega))

/-- Everything the buffered scanning loop appends: records at increasing
offsets (at least 1024 apart), each of them the canonical decode of a
position whose in-bounds 4-byte window is the marker, never more than the
limit allows. -/
theorem bl_spec (buffer : List Nat) (limit : Option Nat) (fuel : Nat) :
    ∀ (offset count : Nat) (records : List SonarRecord),
      ∃ t, parseBufferLoop buffer limit fuel offset count records = records ++ t ∧
        (∀ r ∈ t, offset ≤ r.offset ∧ r.offset + 4 ≤ buffer.length ∧
          u32le_at buffer r.offset = MAGIC_REC_HDR ∧
          r = canonicalRecord buffer r.offset) ∧
        List.Chain' (fun a b => a.offset + 1024 ≤ b.offset) t ∧
        (∀ l, limit = some l → count ≤ l → count + t.length ≤ l) := by
  induction fuel with
  | zero =>
    intro offset count records
    exact ⟨[], by simp [bl_zero], by simp, by simp, fun l _ hc => by simpa using hc⟩
  | succ fuel ih =>
    intro offset count records
    by_cases ho : offset < buffer.length
    case neg =>
      exact ⟨[], by rw [bl_break (Or.inl (by omega))]; simp, by simp, by simp,
        fun l _ hc => by simpa using hc⟩
    case pos =>
    by_cases hl : limitReached limit count
    case pos =>
      exact ⟨[], by rw [bl_break (Or.inr (Or.inl hl))]; simp, by simp, by simp,
        fun l _ hc => by simpa using hc⟩
    case neg =>
    by_cases h4 : offset + 4 > buffer.length
    case pos =>
      exact ⟨[], by rw [bl_break (Or.inr (Or.inr (by omega)))]; simp, by simp, by simp,
        fun l _ hc => by simpa using hc⟩
    case neg =>
    by_cases hm : u32le_at buffer offset = MAGIC_REC_HDR
    case pos =>
      obtain ⟨t, ht, hprops, hchain, hcount⟩ := ih (offset + 1024) (count + 1)
        (records ++ [canonicalRecord buffer offset])
      refine ⟨canonicalRecord buffer offset :: t, ?_, ?_, ?_, ?_⟩
      · rw [bl_step_match (by simpa using hl) (by omega) hm, ht]
        simp
      · intro r hr
        rcases List.mem_cons.mp hr with hr | hr
        · subst hr
          refine ⟨?_, ?_, ?_, ?_⟩
          · rw [canonicalRecord_offset]
          · rw [canonicalRecord_offset]; omega
          · rw [canonicalRecord_offset]; exact hm
          · rw [canonicalRecord_offset]
        · obtain ⟨h1, h2, h3, h5⟩ := hprops r hr
          exact ⟨by omega, h2, h3, h5⟩
      · rw [List.chain'_cons']
        refine ⟨?_, hchain⟩
        intro y hy
        have hym := List.mem_of_mem_head? hy
        have := (hprops y hym).1
        rw [canonicalRecord_offset]
        omega
      · intro l hle hc
        have hnl : ¬l ≤ count := by
          intro hcon
          apply hl
          rw [hle]
          simp [limitReached, hcon]
        have := hcount l hle (by omega)
        simp only [List.length_cons]
        omega
    case neg =>
      obtain ⟨t, ht, hprops, hchain, hcount⟩ := ih (offset + 1) count records
      refine ⟨t, ?_, ?_, hchain, hcount⟩
      · rw [bl_step_nomatch ho (by simpa using hl) (by omega) hm]
        exact ht
      · intro r hr
        obtain ⟨h1, h2, h3, h5⟩ := hprops r hr
        exact ⟨by omega, h2, h3, h5⟩

/-! ### The streaming inner loop -/

theorem u32le_at_drop (buffer : List Nat) (bo i : Nat) :
    u32le_at (buffer.drop bo) i = u32le_at buffer (bo + i) := by
  unfold u32le_at
  rw [gd_drop, gd_drop, gd_drop, gd_drop,
    show bo + (i + 1) = bo + i + 1 from by omega,
    show bo + (i + 2) = bo + i + 2 from by omega,
    show bo + (i + 3) = bo + i + 3 from by omega]

/-- Windows that lie in the freshly read part of the 1 MiB buffer agree with
the corresponding windows of the file content. -/
theorem u32le_at_corr {buffer content : List Nat} {bytesRead fo : Nat}
    (hcorr : ∀ i, i < bytesRead → buffer.getD i 0 = content.getD (fo + i) 0)
    {j : Nat} (hj : j + 4 ≤ bytesRead) :
    u32le_at buffer j = u32le_at content (fo + j) := by
  unfold u32le_at
  rw [hcorr j (by omega), hcorr (j + 1) (by omega), hcorr (j + 2) (by omega),
    hcorr (j + 3) (by omega),
    show fo + (j + 1) = fo + j + 1 from by omega,
    show fo + (j + 2) = fo + j + 2 from by omega,
    show fo + (j + 3) = fo + j + 3 from by omega]

theorem si_zero (buffer : List Nat) (bytesRead : Nat) (limit : Option Nat)
    (fileOffset bufferOffset count : Nat) (records : List SonarRecord) :
    parseStreamingInner buffer bytesRead limit fileOffset 0 bufferOffset count records =
      (records, count, false) := rfl

theorem si_succ (buffer : List Nat) (bytesRead : Nat) (limit : Option Nat)
    (fileOffset fuel bufferOffset count : Nat) (records : List SonarRecord) :
    parseStreamingInner buffer bytesRead limit fileOffset (fuel + 1) bufferOffset count
        records =
      (if bufferOffset < bytesRead then
        if limitReached limit count then (records, count, true)
        else if bufferOffset + 4 > bytesRead then (records, count, false)
        else if u32le_at buffer bufferOffset = MAGIC_REC_HDR then
          match parse_record_at (buffer.drop bufferOffset) 0 with
          | .ok record =>
              parseStreamingInner buffer bytesRead limit fileOffset fuel
                (bufferOffset + 1024) (count + 1)
                (records ++ [{ record with offset := fileOffset + bufferOffset }])
          | .error _ =>
              parseStreamingInner buffer bytesRead limit fileOffset fuel
                (bufferOffset + 1) count records
        else
          parseStreamingInner buffer bytesRead limit fileOffset fuel
            (bufferOffset + 1) count records
      else (records, count, false)) := rfl

theorem si_out {buffer : List Nat} {bytesRead : Nat} {limit : Option Nat}
    {fileOffset fuel bufferOffset count : Nat} {records : List SonarRecord}
    (h : bytesRead ≤ bufferOffset) :
    parseStreamingInner buffer bytesRead limit fileOffset fuel bufferOffset count
      records = (records, count, false) := by
  cases fuel with
  | zero => rfl
  | succ fuel => rw [si_succ, if_neg (by omega)]

theorem si_break {buffer : List Nat} {bytesRead : Nat} {limit : Option Nat}
    {fileOffset fuel bufferOffset count : Nat} {records : List SonarRecord}
    (hl : limitReached limit count = false) (h4 : bytesRead < bufferOffset + 4) :
    parseStreamingInner buffer bytesRead limit fileOffset fuel bufferOffset count
      records = (records, count, false) := by
  cases fuel with
  | zero => rfl
  | succ fuel =>
    by_cases h1 : bufferOffset < bytesRead
    · rw [si_succ, if_pos h1, if_neg (by simp [hl]), if_pos (by omega)]
    · rw [si_succ, if_neg h1]

theorem si_step_match {buffer : List Nat} {bytesRead : Nat} {limit : Option Nat}
    {fileOffset fuel bufferOffset count : Nat} {records : List SonarRecord}
    (hl : limitReached limit count = false)
    (h4 : bufferOffset + 4 ≤ bytesRead)
    (hlen : bufferOffset + 4 ≤ buffer.length)
    (hm : u32le_at buffer bufferOffset = MAGIC_REC_HDR) :
    parseStreamingInner buffer bytesRead limit fileOffset (fuel + 1) bufferOffset count
        records =
      parseStreamingInner buffer bytesRead limit fileOffset fuel (bufferOffset + 1024)
        (count + 1)
        (records ++ [{ canonicalRecord (buffer.drop bufferOffset) 0 with
          offset := fileOffset + bufferOffset }]) := by
  have hm0 : u32le_at (buffer.drop bufferOffset) 0 = MAGIC_REC_HDR := by
    rw [u32le_at_drop]
    simpa using hm
  have hl0 : 0 + 4 ≤ (buffer.drop bufferOffset).length := by
    rw [List.length_drop]
    omega
  rw [si_succ, if_pos (by omega), if_neg (by simp [hl]), if_neg (by omega), if_pos hm,
    parse_record_at_ok hl0 hm0]

theorem si_step_nomatch {buffer : List Nat} {bytesRead : Nat} {limit : Option Nat}
    {fileOffset fuel bufferOffset count : Nat} {records : List SonarRecord}
    (h1 : bufferOffset < bytesRead)
    (hl : limitReached limit count = false)
    (h4 : bufferOffset + 4 ≤ bytesRead)
    (hm : u32le_at buffer bufferOffset ≠ MAGIC_REC_HDR) :
    parseStreamingInner buffer bytesRead limit fileOffset (fuel + 1) bufferOffset count
        records =
      parseStreamingInner buffer bytesRead limit fileOffset fuel (bufferOffset + 1)
        count records := by
  rw [si_succ, if_pos h1, if_neg (by simp [hl]), if_neg (by omega), if_neg hm]

/-- With no limit the inner loop never takes the early-return branch. -/
theorem si_none_flag {buffer : List Nat} {bytesRead : Nat} {fileOffset : Nat}
    (fuel : Nat) :
    ∀ (bufferOffset count : Nat) (records : List SonarRecord),
      (parseStreamingInner buffer bytesRead none fileOffset fuel bufferOffset count
        records).2.2 = false := by
  induction fuel with
  | zero => intro bo count records; rfl
  | succ fuel ih =>
    intro bo count records
    rw [si_succ]
    by_cases h1 : bo < bytesRead
    · rw [if_pos h1]
      have hlf : limitReached none count = false := rfl
      rw [hlf]
      simp only [Bool.false_eq_true, if_false]
      by_cases h2 : bo + 4 > bytesRead
      · rw [if_pos h2]
      · rw [if_neg h2]
        by_cases h3 : u32le_at buffer bo = MAGIC_REC_HDR
        · rw [if_pos h3]
          cases hpr : parse_record_at (buffer.drop bo) 0 with
          | ok record => simp only []; exact ih _ _ _
          | error e => simp only []; exact ih _ _ _
        · rw [if_neg h3]
          exact ih _ _ _
    · rw [if_neg h1]

/-- The streaming skip lemma (no limit): a stretch with no in-bounds marker
window is crossed byte by byte. -/
theorem si_skip {buffer : List Nat} {bytesRead fileOffset : Nat} (k : Nat) :
    ∀ (fuel bufferOffset count : Nat) (records : List SonarRecord),
      (∀ j, j < k → bufferOffset + j + 4 ≤ bytesRead →
        u32le_at buffer (bufferOffset + j) ≠ MAGIC_REC_HDR) →
      parseStreamingInner buffer bytesRead none fileOffset (k + fuel) bufferOffset count
          records =
        parseStreamingInner buffer bytesRead none fileOffset fuel (bufferOffset + k)
          count records := by
  induction k with
  | zero =>
    intro fuel bo count records _
    rw [Nat.zero_add, Nat.add_zero]
  | succ k ih =>
    intro fuel bo count records h
    have hlf : limitReached none count = false := rfl
    by_cases h1 : bo < bytesRead
    · by_cases h4 : bo + 4 > bytesRead
      · rw [si_break hlf (by omega), si_break hlf (by omega)]
      · have hm0 : u32le_at buffer bo ≠ MAGIC_REC_HDR := by
          have := h 0 (by omega) (by omega)
          simpa using this
        have hsh : ∀ j, j < k → bo + 1 + j + 4 ≤ bytesRead →
            u32le_at buffer (bo + 1 + j) ≠ MAGIC_REC_HDR := by
          intro j hj hb
          have e : bo + 1 + j = bo + (j + 1) := by omega
          rw [e]
          exact h (j + 1) (by omega) (by omega)
        rw [show k + 1 + fuel = (k + fuel) + 1 from by omega,
          si_step_nomatch h1 hlf (by omega) hm0,
          ih fuel (bo + 1) count records hsh,
          show bo + 1 + k = bo + (k + 1) from by omega]
    · rw [si_out (by omega), si_out (by omega)]

/-- If no in-bounds marker window exists at or after the cursor, the inner
loop leaves `records` and `count` unchanged (it may still early-return on the
limit check). -/
theorem si_nomarker {buffer : List Nat} {bytesRead : Nat} {limit : Option Nat}
    {fileOffset : Nat} (fuel : Nat) :
    ∀ (bufferOffset count : Nat) (records : List SonarRecord),
      (∀ j, bufferOffset ≤ j → j + 4 ≤ bytesRead →
        u32le_at buffer j ≠ MAGIC_REC_HDR) →
      (parseStreamingInner buffer bytesRead limit fileOffset fuel bufferOffset count
          records).1 = records ∧
      (parseStreamingInner buffer bytesRead limit fileOffset fuel bufferOffset count
          records).2.1 = count := by
  induction fuel with
  | zero => intro bo count records _; exact ⟨rfl, rfl⟩
  | succ fuel ih =>
    intro bo count records h
    by_cases h1 : bo < bytesRead
    · by_cases hl : limitReached limit count
      · rw [si_succ, if_pos h1, if_pos hl]
        exact ⟨rfl, rfl⟩
      · by_cases h4 : bo + 4 > bytesRead
        · rw [si_break (by simpa using hl) (by omega)]
          exact ⟨rfl, rfl⟩
        · rw [si_step_nomatch h1 (by simpa using hl) (by omega)
            (h bo (le_refl _) (by omega))]
          exact ih (bo + 1) count records (fun j hj hb => h j (by omega) hb)
    · rw [si_out (by omega)]
      exact ⟨rfl, rfl⟩

/-- Everything one chunk's inner scan appends: records with offsets in
`[fileOffset + bufferOffset, fileOffset + bytesRead)` at least 1024 apart,
each sitting on an in-bounds marker window of the file content, and equal to
the canonical decode of the content whenever the record's 12-byte span lies
inside a single chunk; the count rises by the number of appended records and
never passes the limit. -/
theorem si_spec (content : List Nat) {buffer : List Nat} {bytesRead : Nat}
    {limit : Option Nat} {fo : Nat}
    (hbuf : buffer.length = CHUNK) (hbr : bytesRead ≤ CHUNK) (hfo : CHUNK ∣ fo)
    (hlen : fo + bytesRead ≤ content.length)
    (hcorr : ∀ i, i < bytesRead → buffer.getD i 0 = content.getD (fo + i) 0)
    (hmin : min CHUNK (content.length - fo) ≤ bytesRead) (fuel : Nat) :
    ∀ (bufferOffset count : Nat) (records : List SonarRecord),
      ∃ t,
        (parseStreamingInner buffer bytesRead limit fo fuel bufferOffset count
            records).1 = records ++ t ∧
        (parseStreamingInner buffer bytesRead limit fo fuel bufferOffset count
            records).2.1 = count + t.length ∧
        (∀ r ∈ t, fo + bufferOffset ≤ r.offset ∧ r.offset + 4 ≤ fo + bytesRead ∧
          u32le_at content r.offset = MAGIC_REC_HDR ∧
          (r.offset % CHUNK + 12 ≤ CHUNK → r.offset + 12 ≤ content.length →
            r = canonicalRecord content r.offset)) ∧
        List.Chain' (fun a b => a.offset + 1024 ≤ b.offset) t ∧
        (∀ l, limit = some l → count ≤ l → count + t.length ≤ l) := by
  induction fuel with
  | zero =>
    intro bo count records
    refine ⟨[], ?_, ?_, by simp, by simp, fun l _ hc => by simpa using hc⟩
    · rw [si_zero]
      simp
    · rw [si_zero]
      simp
  | succ fuel ih =>
    intro bo count records
    by_cases h1 : bo < bytesRead
    case neg =>
      refine ⟨[], ?_, ?_, by simp, by simp, fun l _ hc => by simpa using hc⟩
      · rw [si_out (by omega)]
        simp
      · rw [si_out (by omega)]
        simp
    case pos =>
    by_cases hl : limitReached limit count
    case pos =>
      refine ⟨[], ?_, ?_, by simp, by simp, fun l _ hc => by simpa using hc⟩
      · rw [si_succ, if_pos h1, if_pos hl]
        simp
      · rw [si_succ, if_pos h1, if_pos hl]
        simp
    case neg =>
    by_cases h4 : bo + 4 > bytesRead
    case pos =>
      refine ⟨[], ?_, ?_, by simp, by simp, fun l _ hc => by simpa using hc⟩
      · rw [si_break (by simpa using hl) (by omega)]
        simp
      · rw [si_break (by simpa using hl) (by omega)]
        simp
    case neg =>
    by_cases hm : u32le_at buffer bo = MAGIC_REC_HDR
    case pos =>
      have hlenb : bo + 4 ≤ buffer.length := by omega
      obtain ⟨t, ht1, ht2, hprops, hchain, hcount⟩ := ih (bo + 1024) (count + 1)
        (records ++ [{ canonicalRecord (buffer.drop bo) 0 with offset := fo + bo }])
      refine ⟨{ canonicalRecord (buffer.drop bo) 0 with offset := fo + bo } :: t,
        ?_, ?_, ?_, ?_, ?_⟩
      · rw [si_step_match (by simpa using hl) (by omega) hlenb hm, ht1]
        simp
      · rw [si_step_match (by simpa using hl) (by omega) hlenb hm, ht2]
        simp only [List.length_cons]
        omega
      · intro r hr
        rcases List.mem_cons.mp hr with hr | hr
        · subst hr
          refine ⟨le_refl _, ?_, ?_, ?_⟩
          · show fo + bo + 4 ≤ fo + bytesRead
            omega
          · show u32le_at content (fo + bo) = MAGIC_REC_HDR
            rw [← u32le_at_corr hcorr (show bo + 4 ≤ bytesRead from by omega)]
            exact hm
          · intro hspan hlen12
            have hspan0 : (fo + bo) % CHUNK + 12 ≤ CHUNK := hspan
            have hlen0 : fo + bo + 12 ≤ content.length := hlen12
            obtain ⟨q, hq⟩ := hfo
            have hbolt : bo < CHUNK := by omega
            have hmod : (fo + bo) % CHUNK = bo := by
              rw [hq, Nat.mul_add_mod, Nat.mod_eq_of_lt hbolt]
            have hspan' : bo + 12 ≤ CHUNK := by
              rw [hmod] at hspan0
              exact hspan0
            have h12br : bo + 12 ≤ bytesRead := by omega
            have hslice_len : (buffer.drop bo).length = CHUNK - bo := by
              rw [List.length_drop, hbuf]
            show SonarRecord.mk (fo + bo)
                (if 0 + 8 ≤ (buffer.drop bo).length then
                  u32le_at (buffer.drop bo) (0 + 4) else 0)
                (if 0 + 12 ≤ (buffer.drop bo).length then
                  u32le_at (buffer.drop bo) (0 + 8) else 0)
                none none none none none none none none none none none none
                none none =
              SonarRecord.mk (fo + bo)
                (if fo + bo + 8 ≤ content.length then
                  u32le_at content (fo + bo + 4) else 0)
                (if fo + bo + 12 ≤ content.length then
                  u32le_at content (fo + bo + 8) else 0)
                none none none none none none none none none none none none
                none none
            rw [if_pos (show (0:Nat) + 8 ≤ (buffer.drop bo).length from by
                rw [hslice_len]; omega),
              if_pos (show (0:Nat) + 12 ≤ (buffer.drop bo).length from by
                rw [hslice_len]; omega),
              if_pos (show fo + bo + 8 ≤ content.length from by omega),
              if_pos (show fo + bo + 12 ≤ content.length from by omega),
              show (0:Nat) + 4 = 4 from rfl, show (0:Nat) + 8 = 8 from rfl,
              u32le_at_drop buffer bo 4, u32le_at_drop buffer bo 8,
              u32le_at_corr hcorr (show bo + 4 + 4 ≤ bytesRead from by omega),
              u32le_at_corr hcorr (show bo + 8 + 4 ≤ bytesRead from by omega),
              show fo + (bo + 4) = fo + bo + 4 from by omega,
              show fo + (bo + 8) = fo + bo + 8 from by omega]
        · obtain ⟨g1, g2, g3, g4⟩ := hprops r hr
          exact ⟨by omega, g2, g3, g4⟩
      · rw [List.chain'_cons']
        refine ⟨?_, hchain⟩
        intro y hy
        have hym := List.mem_of_mem_head? hy
        have := (hprops y hym).1
        show fo + bo + 1024 ≤ y.offset
        omega
      · intro l hle hc
        have hnl : ¬l ≤ count := by
          intro hcon
          apply hl
          rw [hle]
          simp [limitReached, hcon]
        have := hcount l hle (by omega)
        simp only [List.length_cons]
        omega
    case neg =>
      obtain ⟨t, ht1, ht2, hprops, hchain, hcount⟩ := ih (bo + 1) count records
      refine ⟨t, ?_, ?_, ?_, hchain, hcount⟩
      · rw [si_step_nomatch h1 (by simpa using hl) (by omega) hm]
        exact ht1
      · rw [si_step_nomatch h1 (by simpa using hl) (by omega) hm]
        exact ht2
      · intro r hr
        obtain ⟨g1, g2, g3, g4⟩ := hprops r hr
        exact ⟨by omega, g2, g3, g4⟩

/-! ### Chunking and the streaming outer loop -/

theorem chunksOfFuel_nil (fuel : Nat) : chunksOfFuel fuel [] = [] := by
  cases fuel with
  | zero => rfl
  | succ fuel => simp [chunksOfFuel]

theorem chunksOfFuel_congr :
    ∀ (fuel fuel' : Nat) (content : List Nat), content.length ≤ fuel →
      content.length ≤ fuel' → chunksOfFuel fuel content = chunksOfFuel fuel' content := by
  intro fuel
  induction fuel with
  | zero =>
    intro fuel' content h _
    have hnil : content = [] := List.eq_nil_of_length_eq_zero (by omega)
    rw [hnil, chunksOfFuel_nil, chunksOfFuel_nil]
  | succ fuel ih =>
    intro fuel' content h h'
    cases fuel' with
    | zero =>
      have hnil : content = [] := List.eq_nil_of_length_eq_zero (by omega)
      rw [hnil, chunksOfFuel_nil, chunksOfFuel_nil]
    | succ fuel' =>
      by_cases hc : content.isEmpty
      · simp [chunksOfFuel, hc]
      · have hC : (1:Nat) ≤ CHUNK := by norm_num [CHUNK]
        have hpos : 1 ≤ content.length := by
          have := (List.isEmpty_eq_false (l := content)).symm
          have hne : content ≠ [] := by
            intro hnil
            exact hc (by simp [hnil])
          exact List.length_pos.mpr hne
        simp only [chunksOfFuel, if_neg hc]
        have hd : (content.drop CHUNK).length ≤ fuel := by
          rw [List.length_drop]
          omega
        have hd' : (content.drop CHUNK).length ≤ fuel' := by
          rw [List.length_drop]
          omega
        rw [ih fuel' (content.drop CHUNK) hd hd']

theorem chunksOf_nil : chunksOf [] = [] := rfl

theorem chunksOf_eq (content : List Nat) :
    chunksOf content =
      if content.isEmpty then []
      else content.take CHUNK :: chunksOf (content.drop CHUNK) := by
  by_cases hc : content.isEmpty
  · have hnil : content = [] := by simpa using hc
    rw [hnil]
    simp [chunksOf_nil]
  · have hC : (1:Nat) ≤ CHUNK := by norm_num [CHUNK]
    have hne : content ≠ [] := by
      intro hnil
      exact hc (by simp [hnil])
    have hpos : 1 ≤ content.length := List.length_pos.mpr hne
    rw [if_neg hc]
    unfold chunksOf
    rw [show content.length = (content.length - 1) + 1 from by omega]
    simp only [chunksOfFuel, if_neg hc]
    rw [chunksOfFuel_congr (content.length - 1) (content.drop CHUNK).length
      (content.drop CHUNK) (by rw [List.length_drop]; omega) (le_refl _)]

theorem sl_nil (limit : Option Nat) (buffer : List Nat) (fileOffset count : Nat)
    (records : List SonarRecord) :
    parseStreamingLoop limit [] buffer fileOffset count records = records := rfl

theorem sl_cons (limit : Option Nat) (chunk : List Nat) (rest : List (List Nat))
    (buffer : List Nat) (fileOffset count : Nat) (records : List SonarRecord) :
    parseStreamingLoop limit (chunk :: rest) buffer fileOffset count records =
      (if chunk.length = 0 then records
      else
        let buffer2 := chunk ++ buffer.drop chunk.length
        let step := parseStreamingInner buffer2 chunk.length limit fileOffset
          (chunk.length + 1) 0 count records
        if step.2.2 then step.1
        else parseStreamingLoop limit rest buffer2 (fileOffset + chunk.length)
          step.2.1 step.1) := rfl

theorem sl_step {limit : Option Nat} {chunk : List Nat} {rest : List (List Nat)}
    {buffer : List Nat} {fileOffset count : Nat} {records : List SonarRecord}
    (hne : chunk.length ≠ 0) :
    parseStreamingLoop limit (chunk :: rest) buffer fileOffset count records =
      (if (parseStreamingInner (chunk ++ buffer.drop chunk.length) chunk.length limit
            fileOffset (chunk.length + 1) 0 count records).2.2 then
        (parseStreamingInner (chunk ++ buffer.drop chunk.length) chunk.length limit
          fileOffset (chunk.length + 1) 0 count records).1
      else
        parseStreamingLoop limit rest (chunk ++ buffer.drop chunk.length)
          (fileOffset + chunk.length)
          (parseStreamingInner (chunk ++ buffer.drop chunk.length) chunk.length limit
            fileOffset (chunk.length + 1) 0 count records).2.1
          (parseStreamingInner (chunk ++ buffer.drop chunk.length) chunk.length limit
            fileOffset (chunk.length + 1) 0 count records).1) := by
  rw [sl_cons, if_neg hne]

/-- Everything the streaming mode appends when fed a file's content in
CHUNK-sized reads starting at a chunk-aligned file offset. -/
theorem sl_spec (content : List Nat) (limit : Option Nat) :
    ∀ (d fo : Nat) (buffer : List Nat) (count : Nat) (records : List SonarRecord),
      content.length - fo ≤ d → buffer.length = CHUNK → CHUNK ∣ fo →
      ∃ t,
        parseStreamingLoop limit (chunksOf (content.drop fo)) buffer fo count records =
          records ++ t ∧
        (∀ r ∈ t, fo ≤ r.offset ∧ r.offset + 4 ≤ content.length ∧
          u32le_at content r.offset = MAGIC_REC_HDR ∧
          (r.offset % CHUNK + 12 ≤ CHUNK → r.offset + 12 ≤ content.length →
            r = canonicalRecord content r.offset)) ∧
        List.Chain' (fun a b => a.offset < b.offset) t ∧
        (∀ l, limit = some l → count ≤ l → count + t.length ≤ l) := by
  intro d
  induction d with
  | zero =>
    intro fo buffer count records hd _ _
    have hnil : content.drop fo = [] := List.drop_eq_nil_of_le (by omega)
    rw [hnil, chunksOf_nil, sl_nil]
    exact ⟨[], by simp, by simp, by simp, fun l _ hc => by simpa using hc⟩
  | succ d ih =>
    intro fo buffer count records hd hbuf hfo
    by_cases hlt : content.length ≤ fo
    · have hnil : content.drop fo = [] := List.drop_eq_nil_of_le hlt
      rw [hnil, chunksOf_nil, sl_nil]
      exact ⟨[], by simp, by simp, by simp, fun l _ hc => by simpa using hc⟩
    · push_neg at hlt
      have hC : (1:Nat) ≤ CHUNK := by norm_num [CHUNK]
      have hdlen : (content.drop fo).length = content.length - fo := by simp
      have hne : ¬(content.drop fo).isEmpty := by
        rw [List.isEmpty_iff_length_eq_zero, hdlen]
        omega
      rw [chunksOf_eq, if_neg hne]
      have hclen : ((content.drop fo).take CHUNK).length =
          min CHUNK (content.length - fo) := by
        simp
      have hcne : ((content.drop fo).take CHUNK).length ≠ 0 := by
        rw [hclen]
        omega
      rw [sl_step hcne]
      have hbr : ((content.drop fo).take CHUNK).length ≤ CHUNK := by
        rw [hclen]
        omega
      have hlen2 : fo + ((content.drop fo).take CHUNK).length ≤ content.length := by
        rw [hclen]
        omega
      have hbuf2 : ((content.drop fo).take CHUNK ++
          buffer.drop ((content.drop fo).take CHUNK).length).length = CHUNK := by
        rw [List.length_append, List.length_drop, hbuf]
        omega
      have hcorr : ∀ i, i < ((content.drop fo).take CHUNK).length →
          ((content.drop fo).take CHUNK ++
            buffer.drop ((content.drop fo).take CHUNK).length).getD i 0 =
          content.getD (fo + i) 0 := by
        intro i hi
        rw [gd_append_left hi, gd_take (show i < CHUNK from by omega), gd_drop]
      have hmin2 : min CHUNK (content.length - fo) ≤
          ((content.drop fo).take CHUNK).length := by
        rw [hclen]
      obtain ⟨t1, ht1, htc, hprops, hchain, hcount⟩ :=
        si_spec content hbuf2 hbr hfo hlen2 hcorr hmin2
          (((content.drop fo).take CHUNK).length + 1) 0 count records
      by_cases hflag : (parseStreamingInner
          ((content.drop fo).take CHUNK ++
            buffer.drop ((content.drop fo).take CHUNK).length)
          ((content.drop fo).take CHUNK).length limit fo
          (((content.drop fo).take CHUNK).length + 1) 0 count records).2.2
      · rw [if_pos hflag, ht1]
        refine ⟨t1, rfl, ?_, ?_, ?_⟩
        · intro r hr
          obtain ⟨g1, g2, g3, g4⟩ := hprops r hr
          exact ⟨by omega, by omega, g3, g4⟩
        · exact List.Chain'.imp (fun a b h => by omega) hchain
        · exact hcount
      · rw [if_neg hflag]
        have hdd : (content.drop fo).drop CHUNK = content.drop (fo + CHUNK) := by
          rw [List.drop_drop]
        by_cases hfull : ((content.drop fo).take CHUNK).length = CHUNK
        · obtain ⟨t2, g1, g2, g3, g4⟩ := ih (fo + CHUNK)
            ((content.drop fo).take CHUNK ++
              buffer.drop ((content.drop fo).take CHUNK).length)
            (count + t1.length) (records ++ t1)
            (by omega) hbuf2 (Dvd.dvd.add hfo (dvd_refl CHUNK))
          rw [hdd, ht1, htc,
            show fo + ((content.drop fo).take CHUNK).length = fo + CHUNK from by
              rw [hfull], g1]
          refine ⟨t1 ++ t2, by rw [List.append_assoc], ?_, ?_, ?_⟩
          · intro r hr
            rcases List.mem_append.mp hr with hr | hr
            · obtain ⟨p1, p2, p3, p4⟩ := hprops r hr
              exact ⟨by omega, by omega, p3, p4⟩
            · obtain ⟨p1, p2, p3, p4⟩ := g2 r hr
              exact ⟨by omega, p2, p3, p4⟩
          · refine List.Chain'.append
              (List.Chain'.imp (fun a b h => by omega) hchain) g3 ?_
            intro x hx y hy
            have hxm := List.mem_of_mem_getLast? hx
            have hym := List.mem_of_mem_head? hy
            have hx2 := (hprops x hxm).2.1
            have hy1 := (g2 y hym).1
            omega
          · intro l hle hc
            have hb1 := hcount l hle hc
            have hb2 := g4 l hle (by omega)
            simp only [List.length_append]
            omega
        · have hpartial : content.length - fo < CHUNK := by
            rw [hclen] at hfull
            omega
          have hnil2 : content.drop (fo + CHUNK) = [] :=
            List.drop_eq_nil_of_le (by omega)
          rw [hdd, hnil2, chunksOf_nil, sl_nil, ht1]
          refine ⟨t1, rfl, ?_, ?_, ?_⟩
          · intro r hr
            obtain ⟨g1, g2, g3, g4⟩ := hprops r hr
            exact ⟨by omega, by omega, g3, g4⟩
          · exact List.Chain'.imp (fun a b h => by omega) hchain
          · exact hcount

/-- If no in-bounds marker window exists at or after a file offset, the
streaming loop from there appends nothing. -/
theorem sl_nomarker (content : List Nat) (limit : Option Nat) :
    ∀ (d fo : Nat) (buffer : List Nat) (count : Nat) (records : List SonarRecord),
      content.length - fo ≤ d → buffer.length = CHUNK →
      (∀ p, fo ≤ p → p + 4 ≤ content.length → u32le_at content p ≠ MAGIC_REC_HDR) →
      parseStreamingLoop limit (chunksOf (content.drop fo)) buffer fo count records =
        records := by
  intro d
  induction d with
  | zero =>
    intro fo buffer count records hd _ _
    have hnil : content.drop fo = [] := List.drop_eq_nil_of_le (by omega)
    rw [hnil, chunksOf_nil, sl_nil]
  | succ d ih =>
    intro fo buffer count records hd hbuf hnom
    by_cases hlt : content.length ≤ fo
    · have hnil : content.drop fo = [] := List.drop_eq_nil_of_le hlt
      rw [hnil, chunksOf_nil, sl_nil]
    · push_neg at hlt
      have hC : (1:Nat) ≤ CHUNK := by norm_num [CHUNK]
      have hdlen : (content.drop fo).length = content.length - fo := by simp
      have hne : ¬(content.drop fo).isEmpty := by
        rw [List.isEmpty_iff_length_eq_zero, hdlen]
        omega
      rw [chunksOf_eq, if_neg hne]
      have hclen : ((content.drop fo).take CHUNK).length =
          min CHUNK (content.length - fo) := by
        simp
      have hcne : ((content.drop fo).take CHUNK).length ≠ 0 := by
        rw [hclen]
        omega
      rw [sl_step hcne]
      have hcorr : ∀ i, i < ((content.drop fo).take CHUNK).length →
          ((content.drop fo).take CHUNK ++
            buffer.drop ((content.drop fo).take CHUNK).length).getD i 0 =
          content.getD (fo + i) 0 := by
        intro i hi
        rw [gd_append_left hi, gd_take (show i < CHUNK from by omega), gd_drop]
      have hnom2 : ∀ j, 0 ≤ j → j + 4 ≤ ((content.drop fo).take CHUNK).length →
          u32le_at ((content.drop fo).take CHUNK ++
            buffer.drop ((content.drop fo).take CHUNK).length) j ≠ MAGIC_REC_HDR := by
        intro j _ hj
        rw [u32le_at_corr hcorr hj]
        exact hnom (fo + j) (by omega) (by omega)
      obtain ⟨hrec, hcnt⟩ := si_nomarker
        (((content.drop fo).take CHUNK).length + 1) 0 count records hnom2
      by_cases hflag : (parseStreamingInner
          ((content.drop fo).take CHUNK ++
            buffer.drop ((content.drop fo).take CHUNK).length)
          ((content.drop fo).take CHUNK).length limit fo
          (((content.drop fo).take CHUNK).length + 1) 0 count records).2.2
      · rw [if_pos hflag, hrec]
      · rw [if_neg hflag, hrec, hcnt]
        have hbuf2 : ((content.drop fo).take CHUNK ++
            buffer.drop ((content.drop fo).take CHUNK).length).length = CHUNK := by
          rw [List.length_append, List.length_drop, hbuf]
          have : ((content.drop fo).take CHUNK).length ≤ CHUNK := by
            rw [hclen]
            omega
          omega
        have hdd : (content.drop fo).drop CHUNK = content.drop (fo + CHUNK) := by
          rw [List.drop_drop]
        by_cases hfull : ((content.drop fo).take CHUNK).length = CHUNK
        · rw [hfull] at hbuf2
          rw [hfull, hdd]
          exact ih (fo + CHUNK) _ count records (by omega) hbuf2
            (fun p hp hb => hnom p (by omega) hb)
        · have hpartial : content.length - fo < CHUNK := by
            rw [hclen] at hfull
            omega
          have hnil2 : content.drop (fo + CHUNK) = [] :=
            List.drop_eq_nil_of_le (by omega)
          rw [hdd, hnil2, chunksOf_nil, sl_nil]

theorem u32le_at_take {l : List Nat} {n j : Nat} (h : j + 4 ≤ n) :
    u32le_at (l.take n) j = u32le_at l j := by
  unfold u32le_at
  rw [gd_take (by omega) 0, gd_take (by omega) 0, gd_take (by omega) 0,
    gd_take (by omega) 0]

/-- A 12-byte well-formed record used by several witnesses: marker bytes
(little-endian 0xB7E9DA86), then sequence 1, then time 2. -/
def wContent9 : List Nat := [134, 218, 233, 183, 1, 0, 0, 0, 2, 0, 0, 0]

/-- The record the parser decodes at offset 0 of `wContent9`. -/
def wRec9 : SonarRecord :=
  { offset := 0, sequence := 1, time_ms := 2,
    channel_id := none, latitude := none, longitude := none, depth_m := none,
    water_temp_c := none, water_temp_f := none, pitch_deg := none,
    roll_deg := none, beam_angle_deg := none, gps_speed_knots := none,
    gps_heading_deg := none, sample_count := none, sonar_offset := none,
    sonar_size := none }

/-! ### Claim theorems -/

/-- C8: `parse_record_at` fails with `CorruptedRecord` exactly when fewer than
4 bytes are available at `start`; fails with `InvalidFormat` carrying offset
`start` exactly when 4 bytes are available but are not the marker; and
otherwise succeeds with `offset = start`, `sequence` the little-endian u32 at
`start + 4` when `start + 8 ≤ length` (0 otherwise), `time_ms` the
little-endian u32 at `start + 8` when `start + 12 ≤ length` (0 otherwise),
and every optional field absent. -/
theorem c8_parse_record_at_spec (buffer : List Nat) (start : Nat) :
    (parse_record_at buffer start = .error .CorruptedRecord ↔
      buffer.length < start + 4) ∧
    (parse_record_at buffer start = .error (.InvalidFormat start "Invalid magic byte") ↔
      (start + 4 ≤ buffer.length ∧ u32le_at buffer start ≠ MAGIC_REC_HDR)) ∧
    (start + 4 ≤ buffer.length → u32le_at buffer start = MAGIC_REC_HDR →
      parse_record_at buffer start = .ok
        { offset := start,
          sequence :=
            if start + 8 ≤ buffer.length then u32le_at buffer (start + 4) else 0,
          time_ms :=
            if start + 12 ≤ buffer.length then u32le_at buffer (start + 8) else 0,
          channel_id := none, latitude := none, longitude := none, depth_m := none,
          water_temp_c := none, water_temp_f := none, pitch_deg := none,
          roll_deg := none, beam_angle_deg := none, gps_speed_knots := none,
          gps_heading_deg := none, sample_count := none, sonar_offset := none,
          sonar_size := none }) :=
  ⟨parse_record_at_eq_corrupted_iff buffer start,
   parse_record_at_eq_invalid_iff buffer start,
   fun h4 hm => parse_record_at_ok h4 hm⟩

/-- C8 witness: the three behaviours at concrete inputs. -/
theorem c8_witness :
    parse_record_at [1, 2, 3] 0 = .error .CorruptedRecord ∧
    parse_record_at [1, 2, 3, 4] 0 = .error (.InvalidFormat 0 "Invalid magic byte") ∧
    parse_record_at [134, 218, 233, 183, 7] 0 = .ok
      { offset := 0, sequence := 0, time_ms := 0,
        channel_id := none, latitude := none, longitude := none, depth_m := none,
        water_temp_c := none, water_temp_f := none, pitch_deg := none,
        roll_deg := none, beam_angle_deg := none, gps_speed_knots := none,
        gps_heading_deg := none, sample_count := none, sonar_offset := none,
        sonar_size := none } :=
  ⟨(c8_parse_record_at_spec [1, 2, 3] 0).1.mpr (by norm_num),
   (c8_parse_record_at_spec [1, 2, 3, 4] 0).2.1.mpr ⟨by norm_num, by decide⟩,
   (c8_parse_record_at_spec [134, 218, 233, 183, 7] 0).2.2 (by norm_num) (by decide)⟩

/-- C3: the scanning loops absorb all per-candidate decode failures:
`parse_buffer` and `parse_streaming` always return `Ok` (in the embedding,
which models I/O as succeeding, they have no error path at all), and on
content with zero in-bounds occurrences of the marker the result is `Ok []`
in both modes, hence also for `parse_all`. -/
theorem c3_error_absorption (content : List Nat) (limit : Option Nat) :
    (∃ rs, parse_buffer content limit = .ok rs) ∧
    (∃ rs, parse_streaming (chunksOf content) limit = .ok rs) ∧
    ((∀ p, p + 4 ≤ content.length → u32le_at content p ≠ MAGIC_REC_HDR) →
      parse_buffer content limit = .ok [] ∧
      parse_streaming (chunksOf content) limit = .ok [] ∧
      parse_all content limit = .ok []) := by
  refine ⟨⟨_, rfl⟩, ⟨_, rfl⟩, ?_⟩
  intro hnom
  have hb : parse_buffer content limit = .ok [] := by
    unfold parse_buffer
    rw [bl_nomarker (content.length + 1) 0 0 [] (fun j _ hj => hnom j hj)]
  have hs : parse_streaming (chunksOf content) limit = .ok [] := by
    unfold parse_streaming
    have hsl := sl_nomarker content limit content.length 0 (List.replicate CHUNK 0) 0 []
      (by omega) (by simp) (fun p _ hp => hnom p hp)
    simp only [List.drop_zero] at hsl
    rw [hsl]
  refine ⟨hb, hs, ?_⟩
  unfold parse_all
  by_cases ht : content.length < THRESHOLD
  · rw [if_pos ht]
    exact hb
  · rw [if_neg ht]
    exact hs

/-- C3 witness: a five-byte all-zero file yields `Ok []` in every mode. -/
theorem c3_witness :
    parse_buffer [0, 0, 0, 0, 0] none = .ok [] ∧
    parse_streaming (chunksOf [0, 0, 0, 0, 0]) none = .ok [] ∧
    parse_all [0, 0, 0, 0, 0] none = .ok [] :=
  (c3_error_absorption [0, 0, 0, 0, 0] none).2.2 (by
    intro p hp
    have hp5 : p + 4 ≤ 5 := by simpa using hp
    have hp1 : p ≤ 1 := by omega
    interval_cases p <;> decide)

/-- C5: `parse_all` with limit `some n` returns at most `n` records and with
`n = 0` exactly the empty sequence. -/
theorem c5_limit (content : List Nat) (n : Nat) (rs : List SonarRecord)
    (h : parse_all content (some n) = .ok rs) :
    rs.length ≤ n ∧ (n = 0 → rs = []) := by
  have hlen : rs.length ≤ n := by
    unfold parse_all at h
    by_cases ht : content.length < THRESHOLD
    · rw [if_pos ht] at h
      unfold parse_buffer at h
      have hr := Except.ok.inj h
      obtain ⟨t, h1, _, _, h4⟩ := bl_spec content (some n) (content.length + 1) 0 0 []
      rw [h1] at hr
      simp only [List.nil_append] at hr
      subst hr
      have := h4 n rfl (by omega)
      omega
    · rw [if_neg ht] at h
      unfold parse_streaming at h
      have hr := Except.ok.inj h
      obtain ⟨t, h1, _, _, h4⟩ := sl_spec content (some n) content.length 0
        (List.replicate CHUNK 0) 0 [] (by omega) (by simp) (dvd_zero CHUNK)
      simp only [List.drop_zero] at h1
      rw [h1] at hr
      simp only [List.nil_append] at hr
      subst hr
      have := h4 n rfl (by omega)
      omega
  exact ⟨hlen, fun hn0 => List.eq_nil_of_length_eq_zero (by omega)⟩

/-- C5 witness: limit 0 on a one-marker file returns the empty sequence. -/
theorem c5_witness :
    ([] : List SonarRecord).length ≤ 0 ∧ ((0 : Nat) = 0 → ([] : List SonarRecord) = []) :=
  c5_limit [134, 218, 233, 183] 0 [] rfl

/-- C9: every record `parse_all` returns sits on an in-bounds occurrence of
the record-start marker of the input: the 4 bytes at its reported offset
decode (little-endian) to 0xB7E9DA86. -/
theorem c9_marker_invariant (content : List Nat) (limit : Option Nat)
    (rs : List SonarRecord) (h : parse_all content limit = .ok rs) :
    ∀ r ∈ rs, r.offset + 4 ≤ content.length ∧
      u32le_at content r.offset = MAGIC_REC_HDR := by
  unfold parse_all at h
  by_cases ht : content.length < THRESHOLD
  · rw [if_pos ht] at h
    unfold parse_buffer at h
    have hr := Except.ok.inj h
    obtain ⟨t, h1, h2, _, _⟩ := bl_spec content limit (content.length + 1) 0 0 []
    rw [h1] at hr
    simp only [List.nil_append] at hr
    subst hr
    intro r hrm
    obtain ⟨_, g2, g3, _⟩ := h2 r hrm
    exact ⟨g2, g3⟩
  · rw [if_neg ht] at h
    unfold parse_streaming at h
    have hr := Except.ok.inj h
    obtain ⟨t, h1, h2, _, _⟩ := sl_spec content limit content.length 0
      (List.replicate CHUNK 0) 0 [] (by omega) (by simp) (dvd_zero CHUNK)
    simp only [List.drop_zero] at h1
    rw [h1] at hr
    simp only [List.nil_append] at hr
    subst hr
    intro r hrm
    obtain ⟨_, g2, g3, _⟩ := h2 r hrm
    exact ⟨g2, g3⟩

/-- C9 witness: the record decoded from `wContent9` sits on the marker. -/
theorem c9_witness :
    wRec9.offset + 4 ≤ wContent9.length ∧
      u32le_at wContent9 wRec9.offset = MAGIC_REC_HDR :=
  c9_marker_invariant wContent9 none [wRec9] rfl wRec9 (List.mem_singleton.mpr rfl)

/-- C10: the offsets of the records `parse_all` returns are strictly
increasing in output order, and in the buffered path (content below the
threshold) successive offsets differ by at least 1024. -/
theorem c10_monotone (content : List Nat) (limit : Option Nat)
    (rs : List SonarRecord) (h : parse_all content limit = .ok rs) :
    List.Chain' (fun a b => a.offset < b.offset) rs ∧
    (content.length < THRESHOLD →
      List.Chain' (fun a b => a.offset + 1024 ≤ b.offset) rs) := by
  unfold parse_all at h
  by_cases ht : content.length < THRESHOLD
  · rw [if_pos ht] at h
    unfold parse_buffer at h
    have hr := Except.ok.inj h
    obtain ⟨t, h1, _, h3, _⟩ := bl_spec content limit (content.length + 1) 0 0 []
    rw [h1] at hr
    simp only [List.nil_append] at hr
    subst hr
    exact ⟨List.Chain'.imp (fun a b hh => by omega) h3, fun _ => h3⟩
  · rw [if_neg ht] at h
    unfold parse_streaming at h
    have hr := Except.ok.inj h
    obtain ⟨t, h1, _, h3, _⟩ := sl_spec content limit content.length 0
      (List.replicate CHUNK 0) 0 [] (by omega) (by simp) (dvd_zero CHUNK)
    simp only [List.drop_zero] at h1
    rw [h1] at hr
    simp only [List.nil_append] at hr
    subst hr
    exact ⟨h3, fun hc => absurd hc ht⟩

/-- C10 witness: the one-record output of `wContent9` is trivially chained. -/
theorem c10_witness :
    List.Chain' (fun a b => a.offset < b.offset) [wRec9] ∧
    (wContent9.length < THRESHOLD →
      List.Chain' (fun a b => a.offset + 1024 ≤ b.offset) [wRec9]) :=
  c10_monotone wContent9 none [wRec9] rfl

/-- C1: on a buffer that consists of exactly one well-formed record — the
marker at offset 0 (and no other in-bounds marker occurrence anywhere),
followed by a 4-byte sequence and a 4-byte time, total length at least 12 —
`parse_all` with no limit returns exactly one record: offset 0, `sequence`
and `time_ms` the little-endian u32 values at bytes 4..8 and 8..12, and all
fourteen optional fields absent. -/
theorem c1_single_record (content : List Nat)
    (hlen : 12 ≤ content.length)
    (hm : u32le_at content 0 = MAGIC_REC_HDR)
    (honly : ∀ p, 1 ≤ p → p + 4 ≤ content.length →
      u32le_at content p ≠ MAGIC_REC_HDR) :
    parse_all content none = .ok
      [{ offset := 0, sequence := u32le_at content 4, time_ms := u32le_at content 8,
         channel_id := none, latitude := none, longitude := none, depth_m := none,
         water_temp_c := none, water_temp_f := none, pitch_deg := none,
         roll_deg := none, beam_angle_deg := none, gps_speed_knots := none,
         gps_heading_deg := none, sample_count := none, sonar_offset := none,
         sonar_size := none }] := by
  have hcan : canonicalRecord content 0 =
      { offset := 0, sequence := u32le_at content 4, time_ms := u32le_at content 8,
        channel_id := none, latitude := none, longitude := none, depth_m := none,
        water_temp_c := none, water_temp_f := none, pitch_deg := none,
        roll_deg := none, beam_angle_deg := none, gps_speed_knots := none,
        gps_heading_deg := none, sample_count := none, sonar_offset := none,
        sonar_size := none } := by
    unfold canonicalRecord
    rw [if_pos (show 0 + 8 ≤ content.length from by omega),
      if_pos (show 0 + 12 ≤ content.length from by omega),
      show (0 : Nat) + 4 = 4 from rfl, show (0 : Nat) + 8 = 8 from rfl]
  unfold parse_all
  by_cases ht : content.length < THRESHOLD
  · rw [if_pos ht]
    unfold parse_buffer
    rw [bl_step_match (show limitReached none 0 = false from rfl) (by omega) hm,
      bl_nomarker content.length 1024 1 _ (fun j hj hb => honly j (by omega) hb),
      hcan]
    simp
  · rw [if_neg ht]
    push_neg at ht
    have hCe : CHUNK = 1048576 := by norm_num [CHUNK]
    have hTe : THRESHOLD = 524288000 := by norm_num [THRESHOLD]
    have hCl : CHUNK ≤ content.length := by omega
    unfold parse_streaming
    have hne : ¬content.isEmpty := by
      rw [List.isEmpty_iff_length_eq_zero]
      omega
    rw [chunksOf_eq, if_neg hne]
    have hc0len : (content.take CHUNK).length = CHUNK := by
      simp
      omega
    rw [sl_step (by rw [hc0len]; omega)]
    rw [hc0len, List.drop_replicate, Nat.sub_self, List.replicate_zero,
      List.append_nil]
    rw [si_step_match (show limitReached none 0 = false from rfl)
      (show (0 : Nat) + 4 ≤ CHUNK from by omega)
      (show (0 : Nat) + 4 ≤ (content.take CHUNK).length from by rw [hc0len]; omega)
      (show u32le_at (content.take CHUNK) 0 = MAGIC_REC_HDR from by
        rw [u32le_at_take (by omega)]; exact hm)]
    rw [si_none_flag CHUNK (0 + 1024) (0 + 1) _]
    simp only [Bool.false_eq_true, if_false]
    obtain ⟨hrec1, hcnt1⟩ := @si_nomarker (content.take CHUNK)
      CHUNK none 0 CHUNK (0 + 1024) (0 + 1)
      ([] ++ [{ canonicalRecord ((content.take CHUNK).drop 0) 0 with
        offset := (0 : Nat) + 0 }])
      (fun j hj hb => by
        rw [u32le_at_take (by omega)]
        exact honly j (by omega) (by omega))
    rw [hrec1, hcnt1, Nat.zero_add,
      sl_nomarker content none content.length CHUNK (content.take CHUNK) 1 _
        (by omega) hc0len (fun p hp hb => honly p (by omega) hb)]
    rw [show ({ canonicalRecord ((content.take CHUNK).drop 0) 0 with
        offset := (0 : Nat) + 0 }) = canonicalRecord content 0 from by
      rw [List.drop_zero]
      show SonarRecord.mk ((0 : Nat) + 0)
          (if 0 + 8 ≤ (content.take CHUNK).length then
            u32le_at (content.take CHUNK) (0 + 4) else 0)
          (if 0 + 12 ≤ (content.take CHUNK).length then
            u32le_at (content.take CHUNK) (0 + 8) else 0)
          none none none none none none none none none none none none none none =
        canonicalRecord content 0
      rw [hc0len, if_pos (show (0 : Nat) + 8 ≤ CHUNK from by omega),
        if_pos (show (0 : Nat) + 12 ≤ CHUNK from by omega),
        show (0 : Nat) + 4 = 4 from rfl, show (0 : Nat) + 8 = 8 from rfl,
        show (0 : Nat) + 0 = 0 from rfl,
        u32le_at_take (show 4 + 4 ≤ CHUNK from by omega),
        u32le_at_take (show 8 + 4 ≤ CHUNK from by omega)]
      unfold canonicalRecord
      rw [if_pos (show 0 + 8 ≤ content.length from by omega),
        if_pos (show 0 + 12 ≤ content.length from by omega),
        show (0 : Nat) + 4 = 4 from rfl, show (0 : Nat) + 8 = 8 from rfl],
      hcan]
    simp

/-- C1 witness: the 12-byte single-record file `wContent9`. -/
theorem c1_witness :
    parse_all wContent9 none = .ok
      [{ offset := 0, sequence := u32le_at wContent9 4, time_ms := u32le_at wContent9 8,
         channel_id := none, latitude := none, longitude := none, depth_m := none,
         water_temp_c := none, water_temp_f := none, pitch_deg := none,
         roll_deg := none, beam_angle_deg := none, gps_speed_knots := none,
         gps_heading_deg := none, sample_count := none, sonar_offset := none,
         sonar_size := none }] :=
  c1_single_record wContent9 (by decide) (by decide) (by
    intro p hp1 hp2
    have hp12 : p + 4 ≤ 12 := by simpa [wContent9] using hp2
    have hp8 : p ≤ 8 := by omega
    interval_cases p <;> decide)

/-- C6 counterexample: on the 4-byte buffer holding only the marker (a
truncated record: marker present, 0 < 8 trailing bytes), scanning does NOT
continue searching 1 byte forward from the candidate — the candidate decodes
successfully (defaulted fields), a record at that offset is emitted, and the
cursor advances 1024 bytes. -/
theorem c6_counterexample :
    (markerOccursAt [134, 218, 233, 183] 0 ∧
      ([134, 218, 233, 183] : List Nat).length < 0 + 12) ∧
    parseBufferLoop [134, 218, 233, 183] none (0 + 1) 0 0 [] =
      parseBufferLoop [134, 218, 233, 183] none 0 (0 + 1024) (0 + 1)
        ([] ++ [canonicalRecord [134, 218, 233, 183] 0]) ∧
    parse_buffer [134, 218, 233, 183] none =
      .ok [canonicalRecord [134, 218, 233, 183] 0] ∧
    (canonicalRecord [134, 218, 233, 183] 0).offset = 0 :=
  ⟨⟨by decide, by norm_num⟩,
   bl_step_match (show limitReached none 0 = false from rfl) (by norm_num) (by decide),
   rfl, rfl⟩

/-- C6 (amended): a truncated record (marker fully present but fewer than 8
trailing bytes) decodes successfully with the missing sequence/time fields
left at 0; the scan appends that record and advances the cursor by 1024
bytes (not 1), and the overall parse still terminates with `Ok`. -/
theorem c6_truncated_decode (content : List Nat) (p fuel count : Nat)
    (records : List SonarRecord)
    (hm : markerOccursAt content p) (htr : content.length < p + 12) :
    parse_record_at content p = .ok (canonicalRecord content p) ∧
    (canonicalRecord content p).time_ms = 0 ∧
    (content.length < p + 8 → (canonicalRecord content p).sequence = 0) ∧
    parseBufferLoop content none (fuel + 1) p count records =
      parseBufferLoop content none fuel (p + 1024) (count + 1)
        (records ++ [canonicalRecord content p]) ∧
    (∃ rs, parse_buffer content none = .ok rs) := by
  obtain ⟨hb, hmk⟩ := hm
  refine ⟨parse_record_at_ok hb hmk, ?_, ?_,
    bl_step_match (show limitReached none count = false from rfl) hb hmk, ⟨_, rfl⟩⟩
  · show (if p + 12 ≤ content.length then u32le_at content (p + 8) else 0) = 0
    rw [if_neg (by omega)]
  · intro h8
    show (if p + 8 ≤ content.length then u32le_at content (p + 4) else 0) = 0
    rw [if_neg (by omega)]

/-- C6 witness: the amended behaviour at the 4-byte marker-only buffer. -/
theorem c6_witness :
    parse_record_at [134, 218, 233, 183] 0 =
      .ok (canonicalRecord [134, 218, 233, 183] 0) ∧
    (canonicalRecord [134, 218, 233, 183] 0).time_ms = 0 ∧
    (([134, 218, 233, 183] : List Nat).length < 0 + 8 →
      (canonicalRecord [134, 218, 233, 183] 0).sequence = 0) ∧
    parseBufferLoop [134, 218, 233, 183] none (3 + 1) 0 0 [] =
      parseBufferLoop [134, 218, 233, 183] none 3 (0 + 1024) (0 + 1)
        ([] ++ [canonicalRecord [134, 218, 233, 183] 0]) ∧
    (∃ rs, parse_buffer [134, 218, 233, 183] none = .ok rs) :=
  c6_truncated_decode [134, 218, 233, 183] 0 3 0 [] (by decide) (by norm_num)

/-- Buffer with three valid records at offsets 0, 4 and 8 (each marker has at
least 12 bytes of data after its start). -/
def exC7 : List Nat :=
  [134, 218, 233, 183, 134, 218, 233, 183, 134, 218, 233, 183,
   0, 0, 0, 0, 0, 0, 0, 0, 0, 0, 0, 0]

/-- C7 counterexample: `exC7` contains two valid records at p = 4 and q = 8
with p < q < p + 1024, yet `parse_all` does not return the record at p — the
record at offset 0 is decoded first and the 1024-byte advance skips p (and q)
as well, so the claim's universally quantified statement fails. -/
theorem c7_counterexample :
    (markerOccursAt exC7 4 ∧ 4 + 12 ≤ exC7.length ∧
      markerOccursAt exC7 8 ∧ 8 + 12 ≤ exC7.length ∧ 4 < 8 ∧ 8 < 4 + 1024) ∧
    parse_all exC7 none = .ok [canonicalRecord exC7 0] ∧
    (∀ r ∈ [canonicalRecord exC7 0], r.offset ≠ 4) := by
  refine ⟨⟨by decide, by decide, by decide, by decide, by norm_num, by norm_num⟩,
    rfl, ?_⟩
  intro r hr
  rcases List.mem_singleton.mp hr with hr
  subst hr
  rw [canonicalRecord_offset]
  norm_num

/-- C7 (amended): two valid records at p and q with p < q < p + 1024, where
p is the first marker occurrence in the buffer and the buffer is parsed in
buffered mode (length below the 500 MiB threshold): `parse_all` returns the
record at p but no record at q. -/
theorem c7_skip_second (content : List Nat) (p q : Nat)
    (hth : content.length < THRESHOLD)
    (hp : markerOccursAt content p) (_hq : markerOccursAt content q)
    (hp12 : p + 12 ≤ content.length) (_hq12 : q + 12 ≤ content.length)
    (hpq : p < q) (hq1024 : q < p + 1024)
    (hfirst : ∀ j, j < p → j + 4 ≤ content.length →
      u32le_at content j ≠ MAGIC_REC_HDR) :
    ∃ rs, parse_all content none = .ok rs ∧
      (∃ r ∈ rs, r.offset = p) ∧ (∀ r ∈ rs, r.offset ≠ q) := by
  obtain ⟨hpb, hpm⟩ := hp
  unfold parse_all
  rw [if_pos hth]
  unfold parse_buffer
  rw [show content.length + 1 = p + (content.length + 1 - p) from by omega,
    bl_skip p (content.length + 1 - p) 0 0 []
      (fun j hj hb => by
        have e : (0 : Nat) + j = j := by omega
        rw [e]
        exact hfirst j hj (by omega)),
    Nat.zero_add,
    show content.length + 1 - p = (content.length - p) + 1 from by omega,
    bl_step_match (show limitReached none 0 = false from rfl) hpb hpm]
  obtain ⟨t, h1, h2, _, _⟩ := bl_spec content none (content.length - p) (p + 1024) 1
    ([] ++ [canonicalRecord content p])
  rw [h1]
  refine ⟨_, rfl, ⟨canonicalRecord content p, by simp, canonicalRecord_offset content p⟩,
    ?_⟩
  intro r hr
  simp only [List.nil_append, List.cons_append, List.mem_cons] at hr
  rcases hr with hr | hr
  · subst hr
    rw [canonicalRecord_offset]
    omega
  · have := (h2 r hr).1
    omega

/-- C7 witness: records at 0 and 4 in a 16-byte buffer — the record at 0 is
returned and the record at 4 is skipped. -/
theorem c7_witness :
    ∃ rs, parse_all [134, 218, 233, 183, 134, 218, 233, 183,
        0, 0, 0, 0, 0, 0, 0, 0] none = .ok rs ∧
      (∃ r ∈ rs, r.offset = 0) ∧ (∀ r ∈ rs, r.offset ≠ 4) :=
  c7_skip_second [134, 218, 233, 183, 134, 218, 233, 183, 0, 0, 0, 0, 0, 0, 0, 0]
    0 4 (by decide) (by decide) (by decide) (by norm_num) (by norm_num)
    (by norm_num) (by norm_num) (fun j hj _ => absurd hj (by omega))

/-! ### C2: buffered vs streaming -/

theorem triple_fst (a : List SonarRecord) (c : Nat) (b : Bool) :
    ((a, c, b) : List SonarRecord × Nat × Bool).1 = a := rfl

theorem triple_snd (a : List SonarRecord) (c : Nat) (b : Bool) :
    ((a, c, b) : List SonarRecord × Nat × Bool).2.1 = c := rfl

theorem ite_triple_false {α : Type} (a : List SonarRecord) (c : Nat) (x y : α) :
    (if ((a, c, false) : List SonarRecord × Nat × Bool).2.2 = true then x else y) =
      y := rfl

/-- The header marker sits right at the end of an all-zero prefix. -/
theorem marker_at_rep_app (t : List Nat) (n : Nat)
    (h0 : t.getD 0 0 = 134) (h1 : t.getD 1 0 = 218) (h2 : t.getD 2 0 = 233)
    (h3 : t.getD 3 0 = 183) :
    u32le_at (List.replicate n 0 ++ t) n = MAGIC_REC_HDR := by
  unfold u32le_at
  rw [gd_append_right (by simp) 0, gd_append_right (by simp) 0,
    gd_append_right (by simp) 0, gd_append_right (by simp) 0,
    List.length_replicate, show n - n = 0 from by omega,
    show n + 1 - n = 1 from by omega, show n + 2 - n = 2 from by omega,
    show n + 3 - n = 3 from by omega, h0, h1, h2, h3]
  decide

/-- Content whose single well-formed record (marker, sequence 1, time 2)
starts 6 bytes before the 1 MiB read boundary, straddling it. -/
def exC2 : List Nat :=
  List.replicate (CHUNK - 6) 0 ++ [134, 218, 233, 183, 1, 0, 0, 0, 2, 0, 0, 0]

/-- The record streaming mode produces for `exC2`: the marker is seen inside
the first read window, but the 6-byte remainder of the window is too short
for the sequence/time reads, which default to 0. -/
def exC2StreamRec : SonarRecord :=
  { offset := CHUNK - 6, sequence := 0, time_ms := 0,
    channel_id := none, latitude := none, longitude := none, depth_m := none,
    water_temp_c := none, water_temp_f := none, pitch_deg := none,
    roll_deg := none, beam_angle_deg := none, gps_speed_knots := none,
    gps_heading_deg := none, sample_count := none, sonar_offset := none,
    sonar_size := none }

theorem exC2_len : exC2.length = CHUNK + 6 := by
  have hCe : CHUNK = 1048576 := by norm_num [CHUNK]
  unfold exC2
  rw [List.length_append, List.length_replicate,
    show ([134, 218, 233, 183, 1, 0, 0, 0, 2, 0, 0, 0] : List Nat).length = 12 from
      rfl]
  omega

theorem exC2_marker : u32le_at exC2 (CHUNK - 6) = MAGIC_REC_HDR := by
  unfold exC2
  exact marker_at_rep_app _ _ (by decide) (by decide) (by decide) (by decide)

theorem exC2_gd (i : Nat) (h : CHUNK - 6 ≤ i) :
    exC2.getD i 0 =
      ([134, 218, 233, 183, 1, 0, 0, 0, 2, 0, 0, 0] : List Nat).getD
        (i - (CHUNK - 6)) 0 := by
  unfold exC2
  rw [gd_append_right (by simpa using h) 0, List.length_replicate]

theorem exC2_seq : u32le_at exC2 (CHUNK - 2) = 1 := by
  have hCe : CHUNK = 1048576 := by norm_num [CHUNK]
  unfold u32le_at
  rw [exC2_gd _ (by omega), exC2_gd _ (by omega), exC2_gd _ (by omega),
    exC2_gd _ (by omega), show CHUNK - 2 - (CHUNK - 6) = 4 from by omega,
    show CHUNK - 2 + 1 - (CHUNK - 6) = 5 from by omega,
    show CHUNK - 2 + 2 - (CHUNK - 6) = 6 from by omega,
    show CHUNK - 2 + 3 - (CHUNK - 6) = 7 from by omega]
  decide

theorem exC2_time : u32le_at exC2 (CHUNK + 2) = 2 := by
  have hCe : CHUNK = 1048576 := by norm_num [CHUNK]
  unfold u32le_at
  rw [exC2_gd _ (by omega), exC2_gd _ (by omega), exC2_gd _ (by omega),
    exC2_gd _ (by omega), show CHUNK + 2 - (CHUNK - 6) = 8 from by omega,
    show CHUNK + 2 + 1 - (CHUNK - 6) = 9 from by omega,
    show CHUNK + 2 + 2 - (CHUNK - 6) = 10 from by omega,
    show CHUNK + 2 + 3 - (CHUNK - 6) = 11 from by omega]
  decide

theorem exC2_rec : canonicalRecord exC2 (CHUNK - 6) =
    { offset := CHUNK - 6, sequence := 1, time_ms := 2,
      channel_id := none, latitude := none, longitude := none, depth_m := none,
      water_temp_c := none, water_temp_f := none, pitch_deg := none,
      roll_deg := none, beam_angle_deg := none, gps_speed_knots := none,
      gps_heading_deg := none, sample_count := none, sonar_offset := none,
      sonar_size := none } := by
  have hCe : CHUNK = 1048576 := by norm_num [CHUNK]
  have hl := exC2_len
  unfold canonicalRecord
  rw [if_pos (by omega), if_pos (by omega),
    show CHUNK - 6 + 4 = CHUNK - 2 from by omega,
    show CHUNK - 6 + 8 = CHUNK + 2 from by omega, exC2_seq, exC2_time]

theorem exC2_buffered :
    parse_buffer exC2 none = .ok [canonicalRecord exC2 (CHUNK - 6)] := by
  have hCe : CHUNK = 1048576 := by norm_num [CHUNK]
  have hl := exC2_len
  unfold parse_buffer
  rw [show exC2.length + 1 = (CHUNK - 6) + 13 from by omega,
    bl_skip (CHUNK - 6) 13 0 0 []
      (fun j hj _ => by
        have e : (0 : Nat) + j = j := by omega
        rw [e]
        show u32le_at exC2 j ≠ MAGIC_REC_HDR
        unfold exC2
        exact nomark_rep _ _ j hj),
    Nat.zero_add, show (13 : Nat) = 12 + 1 from rfl,
    bl_step_match (show limitReached none 0 = false from rfl) (by omega) exC2_marker,
    bl_break (Or.inl (by omega))]
  simp

theorem exC2_chunks :
    chunksOf exC2 =
      [List.replicate (CHUNK - 6) 0 ++ [134, 218, 233, 183, 1, 0],
       [0, 0, 2, 0, 0, 0]] := by
  have hCe : CHUNK = 1048576 := by norm_num [CHUNK]
  have hl := exC2_len
  rw [chunksOf_eq, if_neg (by rw [List.isEmpty_iff_length_eq_zero]; omega)]
  have htake : exC2.take CHUNK =
      List.replicate (CHUNK - 6) 0 ++ [134, 218, 233, 183, 1, 0] := by
    unfold exC2
    rw [List.take_append_eq_append_take,
      List.take_of_length_le (by rw [List.length_replicate]; omega),
      List.length_replicate, show CHUNK - (CHUNK - 6) = 6 from by omega]
    exact congrArg (fun t => List.replicate (CHUNK - 6) 0 ++ t) (by rfl)
  have hdrop : exC2.drop CHUNK = [0, 0, 2, 0, 0, 0] := by
    unfold exC2
    rw [List.drop_append_eq_append_drop,
      List.drop_eq_nil_of_le (by rw [List.length_replicate]; omega),
      List.length_replicate, show CHUNK - (CHUNK - 6) = 6 from by omega]
    rfl
  rw [htake, hdrop, chunksOf_eq, if_neg (by simp),
    List.take_of_length_le (show ([0, 0, 2, 0, 0, 0] : List Nat).length ≤ CHUNK from by
      simp
      omega),
    List.drop_eq_nil_of_le (show ([0, 0, 2, 0, 0, 0] : List Nat).length ≤ CHUNK from by
      simp
      omega),
    chunksOf_nil]

theorem exC2_streaming :
    parse_streaming (chunksOf exC2) none = .ok [exC2StreamRec] := by
  have hCe : CHUNK = 1048576 := by norm_num [CHUNK]
  rw [exC2_chunks]
  unfold parse_streaming
  have hc1len :
      (List.replicate (CHUNK - 6) 0 ++ ([134, 218, 233, 183, 1, 0] : List Nat)).length
        = CHUNK := by
    rw [List.length_append, List.length_replicate,
      show ([134, 218, 233, 183, 1, 0] : List Nat).length = 6 from rfl]
    omega
  rw [sl_step (by rw [hc1len]; omega), hc1len, List.drop_replicate, Nat.sub_self,
    List.replicate_zero, List.append_nil,
    show CHUNK + 1 = (CHUNK - 6) + 7 from by omega,
    si_skip (CHUNK - 6) 7 0 0 []
      (fun j hj _ => by
        have e : (0 : Nat) + j = j := by omega
        rw [e]
        exact nomark_rep _ _ j hj),
    Nat.zero_add, show (7 : Nat) = 6 + 1 from rfl,
    si_step_match (show limitReached none 0 = false from rfl) (by omega)
      (by rw [hc1len]; omega)
      (marker_at_rep_app _ _ (by decide) (by decide) (by decide) (by decide)),
    si_out (by omega), ite_triple_false, triple_fst, triple_snd,
    sl_step (show ([0, 0, 2, 0, 0, 0] : List Nat).length ≠ 0 from by simp),
    show ([0, 0, 2, 0, 0, 0] : List Nat).length = 6 from rfl,
    show (6 : Nat) + 1 = 3 + 4 from rfl,
    si_skip 3 4 0 (0 + 1) _
      (fun j hj _ => by
        have e : (0 : Nat) + j = j := by omega
        rw [e]
        unfold u32le_at
        rw [gd_append_left (show j < ([0, 0, 2, 0, 0, 0] : List Nat).length from by
            simp; omega) 0,
          gd_append_left (show j + 1 < ([0, 0, 2, 0, 0, 0] : List Nat).length from by
            simp; omega) 0,
          gd_append_left (show j + 2 < ([0, 0, 2, 0, 0, 0] : List Nat).length from by
            simp; omega) 0,
          gd_append_left (show j + 3 < ([0, 0, 2, 0, 0, 0] : List Nat).length from by
            simp; omega) 0]
        interval_cases j <;> decide),
    Nat.zero_add,
    si_break (show limitReached none (0 + 1) = false from rfl) (by omega),
    ite_triple_false, triple_fst, triple_snd, sl_nil]
  have hdrop1 :
      (List.replicate (CHUNK - 6) 0 ++ ([134, 218, 233, 183, 1, 0] : List Nat)).drop
        (CHUNK - 6) = [134, 218, 233, 183, 1, 0] := by
    rw [List.drop_append_eq_append_drop, List.drop_replicate, Nat.sub_self,
      List.replicate_zero, List.length_replicate, Nat.sub_self]
    rfl
  have hcan : canonicalRecord
      ((List.replicate (CHUNK - 6) 0 ++
        ([134, 218, 233, 183, 1, 0] : List Nat)).drop (CHUNK - 6)) 0 =
      canonicalRecord [134, 218, 233, 183, 1, 0] 0 := by
    rw [hdrop1]
  rw [hcan]
  rfl

/-- C2 counterexample: `exC2` holds one well-formed record whose 12 bytes
start at offset `CHUNK - 6`, straddling the 1 MiB read boundary.  The
buffered path decodes sequence 1 / time 2 from the actual file bytes, while
the streaming path (same content delivered in successive fixed-size 1 MiB
reads) decodes the record at the same absolute offset with sequence 0 /
time 0: the two modes are not observably equivalent on this correct input. -/
theorem c2_counterexample :
    (u32le_at exC2 (CHUNK - 6) = MAGIC_REC_HDR ∧ CHUNK - 6 + 12 ≤ exC2.length) ∧
    parse_buffer exC2 none = .ok [canonicalRecord exC2 (CHUNK - 6)] ∧
    parse_streaming (chunksOf exC2) none = .ok [exC2StreamRec] ∧
    (canonicalRecord exC2 (CHUNK - 6)).offset = CHUNK - 6 ∧
    exC2StreamRec.offset = CHUNK - 6 ∧
    (canonicalRecord exC2 (CHUNK - 6)).sequence = 1 ∧
    exC2StreamRec.sequence = 0 ∧
    canonicalRecord exC2 (CHUNK - 6) ≠ exC2StreamRec := by
  have hCe : CHUNK = 1048576 := by norm_num [CHUNK]
  have hl := exC2_len
  refine ⟨⟨exC2_marker, by omega⟩, exC2_buffered, exC2_streaming,
    canonicalRecord_offset _ _, rfl, ?_, rfl, ?_⟩
  · rw [exC2_rec]
  · intro h
    rw [exC2_rec] at h
    have hseq := congrArg SonarRecord.sequence h
    simp [exC2StreamRec] at hseq

/-- C2 (amended): buffered and streaming modes agree on every record whose
12-byte span lies within a single 1 MiB read window: if the record at
absolute offset p is well-formed (p + 12 ≤ length) and does not straddle a
read boundary (p % CHUNK + 12 ≤ CHUNK), then any record the buffered parse
returns at offset p and any record the streaming parse returns at offset p
are identical. -/
theorem c2_mode_agreement (content : List Nat) (p : Nat)
    (rsB rsS : List SonarRecord) (rB rS : SonarRecord)
    (h12 : p + 12 ≤ content.length) (hspan : p % CHUNK + 12 ≤ CHUNK)
    (hB : parse_buffer content none = .ok rsB) (hBm : rB ∈ rsB) (hBo : rB.offset = p)
    (hS : parse_streaming (chunksOf content) none = .ok rsS) (hSm : rS ∈ rsS)
    (hSo : rS.offset = p) :
    rB = rS := by
  unfold parse_buffer at hB
  have hrB := Except.ok.inj hB
  obtain ⟨t, h1, h2, _, _⟩ := bl_spec content none (content.length + 1) 0 0 []
  rw [h1] at hrB
  simp only [List.nil_append] at hrB
  subst hrB
  obtain ⟨_, _, _, hBc⟩ := h2 rB hBm
  unfold parse_streaming at hS
  have hrS := Except.ok.inj hS
  obtain ⟨t2, g1, g2, _, _⟩ := sl_spec content none content.length 0
    (List.replicate CHUNK 0) 0 [] (by omega) (by simp) (dvd_zero CHUNK)
  simp only [List.drop_zero] at g1
  rw [g1] at hrS
  simp only [List.nil_append] at hrS
  subst hrS
  obtain ⟨_, _, _, hSc⟩ := g2 rS hSm
  rw [hBc, hBo, hSc (by rw [hSo]; exact hspan) (by rw [hSo]; omega), hSo]

/-- C2 witness: on the 12-byte single-record file both modes decode the same
record at offset 0, and the amended theorem applies. -/
theorem c2_witness : wRec9 = wRec9 := by
  have hstream : parse_streaming (chunksOf wContent9) none = .ok [wRec9] := by
    have hCe : CHUNK = 1048576 := by norm_num [CHUNK]
    rw [show chunksOf wContent9 = [wContent9] from by
      rw [chunksOf_eq, if_neg (by decide),
        List.take_of_length_le (show wContent9.length ≤ CHUNK from by
          rw [show wContent9.length = 12 from rfl]
          omega),
        List.drop_eq_nil_of_le (show wContent9.length ≤ CHUNK from by
          rw [show wContent9.length = 12 from rfl]
          omega),
        chunksOf_nil]]
    unfold parse_streaming
    have hb2len : (wContent9 ++ (List.replicate CHUNK 0).drop wContent9.length).length
        = CHUNK := by
      rw [List.length_append, List.length_drop, List.length_replicate,
        show wContent9.length = 12 from rfl]
      omega
    have hgd : ∀ i, i < 12 →
        (wContent9 ++ (List.replicate CHUNK 0).drop wContent9.length).getD i 0 =
          wContent9.getD i 0 := by
      intro i hi
      exact gd_append_left (by rw [show wContent9.length = 12 from rfl]; omega) 0
    rw [sl_step (show wContent9.length ≠ 0 from by decide),
      show wContent9.length + 1 = 12 + 1 from rfl,
      si_step_match (show limitReached none 0 = false from rfl)
        (show (0 : Nat) + 4 ≤ wContent9.length from by decide)
        (show (0 : Nat) + 4 ≤ (wContent9 ++
          (List.replicate CHUNK 0).drop wContent9.length).length from by
          rw [hb2len]; omega)
        (show u32le_at (wContent9 ++
            (List.replicate CHUNK 0).drop wContent9.length) 0 = MAGIC_REC_HDR from by
          unfold u32le_at
          rw [hgd 0 (by omega), hgd (0 + 1) (by omega), hgd (0 + 2) (by omega),
            hgd (0 + 3) (by omega)]
          decide),
      si_out (show wContent9.length ≤ 0 + 1024 from by decide),
      ite_triple_false, triple_fst, triple_snd, sl_nil]
    have hcanW : canonicalRecord ((wContent9 ++
        (List.replicate CHUNK 0).drop wContent9.length).drop 0) 0 = wRec9 := by
      rw [List.drop_zero]
      unfold canonicalRecord
      rw [hb2len, if_pos (show (0 : Nat) + 8 ≤ CHUNK from by omega),
        if_pos (show (0 : Nat) + 12 ≤ CHUNK from by omega),
        show u32le_at (wContent9 ++
            (List.replicate CHUNK 0).drop wContent9.length) (0 + 4) = 1 from by
          unfold u32le_at
          rw [hgd (0 + 4) (by omega), hgd (0 + 4 + 1) (by omega),
            hgd (0 + 4 + 2) (by omega), hgd (0 + 4 + 3) (by omega)]
          decide,
        show u32le_at (wContent9 ++
            (List.replicate CHUNK 0).drop wContent9.length) (0 + 8) = 2 from by
          unfold u32le_at
          rw [hgd (0 + 8) (by omega), hgd (0 + 8 + 1) (by omega),
            hgd (0 + 8 + 2) (by omega), hgd (0 + 8 + 3) (by omega)]
          decide]
      rfl
    rw [hcanW]
    rfl
  exact c2_mode_agreement wContent9 0 [wRec9] [wRec9] wRec9 wRec9 (by decide)
    (by decide) rfl (List.mem_singleton.mpr rfl) rfl hstream
    (List.mem_singleton.mpr rfl) rfl

/-! ### C4: record_count -/

/-- Content whose single marker occurrence straddles the 1 MiB read boundary
of `record_count`'s chunked scan. -/
def exC4 : List Nat := List.replicate (CHUNK - 2) 0 ++ [134, 218, 233, 183]

theorem exC4_len : exC4.length = CHUNK + 2 := by
  have hCe : CHUNK = 1048576 := by norm_num [CHUNK]
  unfold exC4
  rw [List.length_append, List.length_replicate,
    show ([134, 218, 233, 183] : List Nat).length = 4 from rfl]
  omega

theorem exC4_marker : u32le_at exC4 (CHUNK - 2) = MAGIC_REC_HDR := by
  unfold exC4
  exact marker_at_rep_app _ _ (by decide) (by decide) (by decide) (by decide)

theorem exC4_chunks :
    chunksOf exC4 =
      [List.replicate (CHUNK - 2) 0 ++ [134, 218], [233, 183]] := by
  have hCe : CHUNK = 1048576 := by norm_num [CHUNK]
  have hl := exC4_len
  rw [chunksOf_eq, if_neg (by rw [List.isEmpty_iff_length_eq_zero]; omega)]
  have htake : exC4.take CHUNK = List.replicate (CHUNK - 2) 0 ++ [134, 218] := by
    unfold exC4
    rw [List.take_append_eq_append_take,
      List.take_of_length_le (by rw [List.length_replicate]; omega),
      List.length_replicate, show CHUNK - (CHUNK - 2) = 2 from by omega]
    exact congrArg (fun t => List.replicate (CHUNK - 2) 0 ++ t) (by rfl)
  have hdrop : exC4.drop CHUNK = [233, 183] := by
    unfold exC4
    rw [List.drop_append_eq_append_drop,
      List.drop_eq_nil_of_le (by rw [List.length_replicate]; omega),
      List.length_replicate, show CHUNK - (CHUNK - 2) = 2 from by omega]
    rfl
  rw [htake, hdrop, chunksOf_eq, if_neg (by simp),
    List.take_of_length_le (show ([233, 183] : List Nat).length ≤ CHUNK from by
      rw [show ([233, 183] : List Nat).length = 2 from rfl]
      omega),
    List.drop_eq_nil_of_le (show ([233, 183] : List Nat).length ≤ CHUNK from by
      rw [show ([233, 183] : List Nat).length = 2 from rfl]
      omega),
    chunksOf_nil]

theorem exC4_count : record_count exC4 = .ok 0 := by
  have hCe : CHUNK = 1048576 := by norm_num [CHUNK]
  unfold record_count
  rw [exC4_chunks, List.map_cons, List.map_cons, List.map_nil]
  have hlen1 : (List.replicate (CHUNK - 2) 0 ++ ([134, 218] : List Nat)).length =
      CHUNK := by
    rw [List.length_append, List.length_replicate,
      show ([134, 218] : List Nat).length = 2 from rfl]
    omega
  have h1 : countMarkers (List.replicate (CHUNK - 2) 0 ++ [134, 218]) = 0 := by
    unfold countMarkers
    rw [hlen1, List.length_eq_zero, List.filter_eq_nil_iff]
    intro a ha
    have halt : a < CHUNK - 3 := List.mem_range.mp ha
    simp only [decide_eq_true_eq]
    exact nomark_rep _ _ a (by omega)
  have h2 : countMarkers [233, 183] = 0 := rfl
  rw [h1, h2]
  rfl

/-- C4 counterexample: `exC4` contains one (non-overlapping) in-bounds marker
occurrence at offset `CHUNK - 2`, which straddles the boundary between the
two 1 MiB reads; `record_count` sees no complete window holding it in either
chunk and returns 0 < 1. -/
theorem c4_counterexample :
    markerOccursAt exC4 (CHUNK - 2) ∧
    List.Pairwise (fun a b => a + 4 ≤ b) [CHUNK - 2] ∧
    record_count exC4 = .ok 0 ∧
    ¬(([CHUNK - 2] : List Nat).length ≤ 0) := by
  have hCe : CHUNK = 1048576 := by norm_num [CHUNK]
  have hl := exC4_len
  refine ⟨⟨by omega, exC4_marker⟩, ?_, exC4_count, ?_⟩
  · simp
  · simp

theorem filter_length_split (p : Nat → Bool) (l : List Nat) :
    l.length = (l.filter p).length + (l.filter (fun a => !p a)).length := by
  induction l with
  | nil => rfl
  | cons a l ih =>
    rw [List.filter_cons, List.filter_cons]
    by_cases h : p a
    · rw [if_pos h, if_neg (by simp [h])]
      simp only [List.length_cons]
      omega
    · rw [if_neg h, if_pos (by simp [h])]
      simp only [List.length_cons]
      omega

/-- The chunked marker count is bounded below by the number of pairwise
non-overlapping marker occurrences none of which straddles a chunk
boundary. -/
theorem countMarkers_bound :
    ∀ (n : Nat) (content : List Nat) (ps : List Nat), content.length ≤ n →
      List.Pairwise (fun a b => a + 4 ≤ b) ps →
      (∀ p ∈ ps, markerOccursAt content p ∧ p % CHUNK + 4 ≤ CHUNK) →
      ps.length ≤ ((chunksOf content).map countMarkers).sum := by
  intro n
  induction n with
  | zero =>
    intro content ps hn hsort hocc
    cases ps with
    | nil => simp
    | cons p ps' =>
      obtain ⟨hb, _⟩ := (hocc p (List.mem_cons_self _ _)).1
      omega
  | succ n ih =>
    intro content ps hn hsort hocc
    have hCe : CHUNK = 1048576 := by norm_num [CHUNK]
    by_cases hemp : content.length = 0
    · cases ps with
      | nil => simp
      | cons p ps' =>
        obtain ⟨hb, _⟩ := (hocc p (List.mem_cons_self _ _)).1
        omega
    · rw [chunksOf_eq, if_neg (by rw [List.isEmpty_iff_length_eq_zero]; omega),
        List.map_cons, List.sum_cons]
      have hsplit := filter_length_split (fun q => decide (q < CHUNK)) ps
      have hnd : (ps.filter (fun q => decide (q < CHUNK))).Nodup := by
        have hlt : List.Pairwise (fun a b => a < b) ps :=
          hsort.imp (fun h => by omega)
        have hneq : ps.Nodup := hlt.imp (fun h => by omega)
        exact hneq.filter _
      have hsubset : (ps.filter (fun q => decide (q < CHUNK))) ⊆
          (List.range ((content.take CHUNK).length - 3)).filter
            (fun i => decide (u32le_at (content.take CHUNK) i = MAGIC_REC_HDR)) := by
        intro x hx
        obtain ⟨hxm, hxlt⟩ := List.mem_filter.mp hx
        have hxC : x < CHUNK := by simpa using hxlt
        obtain ⟨⟨hxb, hxmk⟩, hxspan⟩ := hocc x hxm
        have hxmod : x % CHUNK = x := Nat.mod_eq_of_lt hxC
        have hx4 : x + 4 ≤ CHUNK := by omega
        have hlen0 : (content.take CHUNK).length = min CHUNK content.length := by
          simp
        rw [List.mem_filter]
        refine ⟨?_, ?_⟩
        · rw [List.mem_range, hlen0]
          omega
        · simp only [decide_eq_true_eq]
          rw [u32le_at_take (by omega)]
          exact hxmk
      have hpart1 : (ps.filter (fun q => decide (q < CHUNK))).length ≤
          countMarkers (content.take CHUNK) := by
        unfold countMarkers
        exact (List.subperm_of_subset hnd hsubset).length_le
      have hge : ∀ q ∈ ps.filter (fun q => !decide (q < CHUNK)), CHUNK ≤ q := by
        intro q hq
        have h2 := (List.mem_filter.mp hq).2
        simp only [Bool.not_eq_true', decide_eq_false_iff_not] at h2
        omega
      have hrec : ((ps.filter (fun q => !decide (q < CHUNK))).map
          (fun q => q - CHUNK)).length ≤
          ((chunksOf (content.drop CHUNK)).map countMarkers).sum := by
        apply ih (content.drop CHUNK)
        · rw [List.length_drop]
          omega
        · rw [List.pairwise_map]
          refine List.Pairwise.imp_of_mem ?_ (hsort.filter _)
          intro a b ha hb hab
          have hga := hge a ha
          omega
        · intro q' hq'
          obtain ⟨q, hqm, hqe⟩ := List.mem_map.mp hq'
          subst hqe
          obtain ⟨⟨hqb, hqmk⟩, hqspan⟩ := hocc q (List.mem_of_mem_filter hqm)
          have hgq := hge q hqm
          refine ⟨⟨?_, ?_⟩, ?_⟩
          · rw [List.length_drop]
            omega
          · rw [u32le_at_drop, show CHUNK + (q - CHUNK) = q from by omega]
            exact hqmk
          · have hqmod : q % CHUNK = (q - CHUNK) % CHUNK := by
              conv_lhs => rw [show q = CHUNK + (q - CHUNK) from by omega]
              rw [Nat.add_mod_left]
            omega
      rw [List.length_map] at hrec
      omega

/-- C4 (amended): `record_count` returns at least k for k pairwise
non-overlapping in-bounds marker occurrences each of which lies entirely
within a single 1 MiB read chunk (p % CHUNK + 4 ≤ CHUNK). -/
theorem c4_lower_bound (content : List Nat) (ps : List Nat)
    (hsort : List.Pairwise (fun a b => a + 4 ≤ b) ps)
    (hocc : ∀ p ∈ ps, markerOccursAt content p ∧ p % CHUNK + 4 ≤ CHUNK)
    (c : Nat) (hc : record_count content = .ok c) :
    ps.length ≤ c := by
  have hsum := Except.ok.inj hc
  have hb := countMarkers_bound content.length content ps (le_refl _) hsort hocc
  omega

/-- C4 witness: two markers at offsets 0 and 8 of a 12-byte file are both
counted. -/
theorem c4_witness : ([0, 8] : List Nat).length ≤ 2 :=
  c4_lower_bound [134, 218, 233, 183, 9, 9, 9, 9, 134, 218, 233, 183] [0, 8]
    (by decide) (by decide) 2 rfl

end SonarSniffer
